import Mathlib

/-!
# A verification development for the `cif` package

This file gives a shallow embedding, in Lean 4, of the `cif` Go package:
a reader and a writer for the Crystallographic Information File (CIF 1.1)
text format.  The embedding follows the Go source closely:

* `lexer.go` — the pushdown tokenizer.  Go represents scanner states as
  function values pushed on an explicit stack; here the states are a closed
  enumeration `stateId` (with captured arguments, e.g. which quote character
  terminates a quoted string), and one Go state-function invocation is one
  `lexStep`.  The package-global `pred` used by `lexer.chars` is captured in
  the state constructors `oneOrMore`/`runPred`.
* `parse.go` — the recursive-descent document builder.  Go maps become
  insertion-ordered association lists (`alookup`/`ainsert`); Go's
  panic/recover error propagation becomes `Except String`.  Go inserts a
  data block (resp. save frame) into the enclosing map before parsing its
  body and then mutates it through shared pointers; since an error aborts
  the whole parse, inserting the finished value at the end is equivalent
  and is what we do here.
* `types.go` — the document model.  The unexported concrete types
  `cifString`/`cifInt`/`cifFloat` (and the slice versions) become the
  constructors of the closed sums `Value` and `ValueLoop`.
* `write.go` — the writer.  Output is accumulated in a `String`; the
  Go panic values `cifError`/`writeError` become the two constructors of
  `WPanic`, each carrying the output flushed before the panic (Go writes
  incrementally to the sink, and flushed output survives a panic).

Machine integers: Go `int` is a 64-bit integer and `strconv.Atoi` fails on
overflow; `Atoi` below models this with `Int` plus explicit bounds checks.
Go `float64` values are carried as their source literal (`cifFloat lit`);
no theorem in this file depends on float arithmetic or formatting, only on
which variant a column resolves to.
-/

set_option maxRecDepth 10000

namespace Cif

/-! ## Character classes (`lexer.go` / state file) -/

/-- `isOrdinaryChar` from the scanner: letters, digits and a fixed
punctuation set. -/
def isOrdinaryChar (r : Char) : Bool :=
  ('A' ≤ r ∧ r ≤ 'Z') ∨ ('a' ≤ r ∧ r ≤ 'z') ∨
  ('0' ≤ r ∧ r ≤ '9') ∨ r = '!' ∨ r = '%' ∨ r = '&' ∨
  r = '(' ∨ r = ')' ∨ r = '*' ∨ r = '+' ∨ r = ',' ∨
  r = '-' ∨ r = '.' ∨ r = '/' ∨ r = ':' ∨ r = '<' ∨
  r = '=' ∨ r = '>' ∨ r = '?' ∨ r = '@' ∨ r = '\\' ∨
  r = '^' ∨ r = '`' ∨ r = '{' ∨ r = '|' ∨ r = '}' ∨ r = '~'

/-- `isNonBlankChar`: ordinary characters plus quotes, hash, dollar,
underscore, semicolon and brackets. -/
def isNonBlankChar (r : Char) : Bool :=
  isOrdinaryChar r ∨ r = '"' ∨ r = '#' ∨ r = '$' ∨
  r = '\'' ∨ r = '_' ∨ r = ';' ∨ r = '[' ∨ r = ']'

/-- `isTextLeadChar`: characters allowed to start a text-field line. -/
def isTextLeadChar (r : Char) : Bool :=
  isOrdinaryChar r ∨ r = '"' ∨ r = '#' ∨ r = '$' ∨
  r = '\'' ∨ r = '_' ∨ r = ' ' ∨ r = '\t' ∨ r = '[' ∨ r = ']'

/-- `isPrintChar`: printable characters (text-field contents). -/
def isPrintChar (r : Char) : Bool :=
  isTextLeadChar r ∨ r = ';'

/-- `isNL`: newline characters. -/
def isNL (r : Char) : Bool :=
  r = '\n' ∨ r = '\r'

/-- `isWhiteSpace`: space, tab or newline. -/
def isWhiteSpace (r : Char) : Bool :=
  r = ' ' ∨ r = '\t' ∨ isNL r

/-- `isDigit`: ASCII decimal digits. -/
def isDigit (r : Char) : Bool :=
  '0' ≤ r ∧ r ≤ '9'

/-- `strings.ToLower`, restricted to ASCII (the only characters CIF
permits), character by character. -/
def charToLower (c : Char) : Char :=
  if 'A' ≤ c ∧ c ≤ 'Z' then Char.ofNat (c.toNat + 32) else c

/-- `strings.ToLower` on a character list. -/
def listToLower (l : List Char) : List Char := l.map charToLower

/-- `strings.ToLower` on a string. -/
def strToLower (s : String) : String := (listToLower s.toList).asString

/-! ## Tokens -/

/-- `itemType` from the state file: the kinds of scanner tokens. -/
inductive itemType where
  | itemError
  | itemEOF
  | itemVersion
  | itemComment
  | itemGlobal
  | itemStop
  | itemDataBlockStart
  | itemSaveFrameStart
  | itemSaveFrameEnd
  | itemLoop
  | itemDataTag
  | itemDataOmitted
  | itemDataMissing
  | itemDataInteger
  | itemDataFloat
  | itemDataString
  | itemDataNone
  deriving DecidableEq, Repr

/-- `itemType.String()`: the display name used in error messages. -/
def typeName : itemType → String
  | .itemError => "Error"
  | .itemEOF => "EOF"
  | .itemVersion => "Version"
  | .itemComment => "Comment"
  | .itemGlobal => "Global"
  | .itemStop => "Stop"
  | .itemDataBlockStart => "DataBlockStart"
  | .itemSaveFrameStart => "SaveFrameStart"
  | .itemSaveFrameEnd => "SaveFrameEnd"
  | .itemLoop => "Loop"
  | .itemDataTag => "DataTag"
  | .itemDataOmitted => "DataOmitted"
  | .itemDataMissing => "DataMissing"
  | .itemDataInteger => "DataInteger"
  | .itemDataFloat => "DataFloat"
  | .itemDataString => "DataString"
  | .itemDataNone => "BUG"

/-- A scanner token: kind, raw text payload and 1-based line number
(`item` in `lexer.go`). -/
structure item where
  typ : itemType
  val : String
  line : Nat
  deriving DecidableEq, Repr

/-- The `item{itemEOF, "", 0}` value fabricated by `nextItem` when the
scanner's state machine has halted. -/
def eofItem : item := ⟨.itemEOF, "", 0⟩

/-! ## Association lists standing in for Go maps

Go's `map[string]T` becomes an insertion-ordered association list; a key
occurs at most once.  `ainsert` overwrites in place or appends, matching
Go's `m[k] = v`.  (Go does not guarantee a map iteration order; the
writer's theorems below only use documents where every map has at most
one entry, so the order choice is immaterial there.) -/

def alookup {α : Type} : List (String × α) → String → Option α
  | [], _ => none
  | (k, v) :: m, key => if k = key then some v else alookup m key

def ainsert {α : Type} : List (String × α) → String → α → List (String × α)
  | [], key, v => [(key, v)]
  | (k, w) :: m, key, v =>
      if k = key then (key, v) :: m else (k, w) :: ainsert m key v

/-! ## The document model (`types.go`) -/

/-- `Value`: a scalar data value.  The Go interface is satisfied exactly by
the unexported `cifString`, `cifInt` and `cifFloat`; those are the
constructors here.  A `cifFloat` carries its source literal (see the file
header). -/
inductive Value where
  | cifString (s : String)
  | cifInt (n : Int)
  | cifFloat (lit : String)
  deriving DecidableEq, Repr

/-- `ValueLoop`: a single column of table data; underlying type is one of
`[]string`, `[]int`, `[]float64`. -/
inductive ValueLoop where
  | cifStrings (l : List String)
  | cifInts (l : List Int)
  | cifFloats (l : List String)
  deriving DecidableEq, Repr

/-- The number of cells in a column. -/
def colLen : ValueLoop → Nat
  | .cifStrings l => l.length
  | .cifInts l => l.length
  | .cifFloats l => l.length

/-- `Loop`: a single table.  `Columns` maps a data tag to its 0-based
column index; `Values` is the list of columns. -/
structure Loop where
  Columns : List (String × Nat)
  Values : List ValueLoop
  deriving DecidableEq, Repr

/-- `Loop.Get`: retrieve the column for a data tag.  A missing key in a Go
map yields the zero value `0`, hence index 0; indexing past the end of
`Values` would panic in Go, which is modeled by `Option` (`none` =
panic). -/
def Loop.Get (lp : Loop) (name : String) : Option ValueLoop :=
  lp.Values.get? ((alookup lp.Columns name).getD 0)

/-- `Block`: the shared shape of data blocks and save frames. -/
structure Block where
  Name : String
  Items : List (String × Value)
  Loops : List (String × Loop)
  deriving DecidableEq, Repr

/-- `SaveFrame`: a save frame is just a block. -/
structure SaveFrame where
  Block : Block
  deriving DecidableEq, Repr

/-- `DataBlock`: a block plus its save frames. -/
structure DataBlock where
  Block : Block
  Frames : List (String × SaveFrame)
  deriving DecidableEq, Repr

/-- `CIF`: an entire CIF file. -/
structure CIF where
  Version : String
  Blocks : List (String × DataBlock)
  deriving DecidableEq, Repr

/-! ## Numeric conversions (`strconv`) -/

def int64Max : Int := 9223372036854775807
def int64Min : Int := -9223372036854775808

/-- `strconv.Atoi`: optional sign, one or more digits, 64-bit range
check. -/
def Atoi (s : String) : Except String Int :=
  let cs := s.toList
  let signDs : Int × List Char :=
    match cs with
    | '+' :: rest => (1, rest)
    | '-' :: rest => (-1, rest)
    | _ => (1, cs)
  let sign := signDs.1
  let ds := signDs.2
  if ds = [] ∨ ¬ ds.all Char.isDigit then
    .error ("parsing \"" ++ s ++ "\": invalid syntax")
  else
    let n : Int := sign * ((ds.foldl (fun a c => a * 10 + (c.toNat - '0'.toNat)) 0 : Nat) : Int)
    if n < int64Min ∨ int64Max < n then
      .error ("parsing \"" ++ s ++ "\": value out of range")
    else .ok n

/-- Lexical shape of a decimal `float64` literal accepted by
`strconv.ParseFloat`: optional sign, a mantissa containing at least one
digit, an optional exponent with at least one digit.  The value itself is
carried as the literal (see the file header); only the accept/reject
behavior is modeled, which matches `ParseFloat` on every string the
scanner can classify as `itemDataFloat`. -/
def goFloatShape (s : String) : Bool :=
  let afterSign : List Char :=
    match s.toList with
    | '+' :: rest => rest
    | '-' :: rest => rest
    | cs => cs
  let intPart := afterSign.takeWhile Char.isDigit
  let rest1 := afterSign.dropWhile Char.isDigit
  let fracOk : Bool × List Char :=
    match rest1 with
    | '.' :: rest2 => (true, rest2.dropWhile Char.isDigit)
    | _ => (true, rest1)
  let fracDigits : List Char :=
    match rest1 with
    | '.' :: rest2 => rest2.takeWhile Char.isDigit
    | _ => []
  let rest3 := fracOk.2
  let mantissaHasDigit := ¬ intPart.isEmpty ∨ ¬ fracDigits.isEmpty
  let expOk : Bool :=
    match rest3 with
    | [] => true
    | 'e' :: r | 'E' :: r =>
        let r' := match r with
          | '+' :: r2 => r2
          | '-' :: r2 => r2
          | _ => r
        ¬ r'.isEmpty ∧ r'.all Char.isDigit
    | _ => false
  mantissaHasDigit ∧ expOk

/-- `strconv.ParseFloat`, value carried as the literal. -/
def ParseFloat (s : String) : Except String String :=
  if goFloatShape s then .ok s
  else .error ("parsing \"" ++ s ++ "\": invalid syntax")

/-! ## The parser (`parse.go`) -/

/-- `parser.errf`: format a parse error with the current 1-based line. -/
def perrf (line : Nat) (msg : String) : String :=
  "CIF parse error (line " ++ toString line ++ "): " ++ msg

/-- `isValueType` from `parse.go`. -/
def isValueType (t : itemType) : Bool :=
  t = .itemDataOmitted ∨ t = .itemDataMissing ∨
  t = .itemDataInteger ∨ t = .itemDataFloat ∨ t = .itemDataString

/-- `isNull` from `parse.go`. -/
def isNull (t : itemType) : Bool :=
  t = .itemDataOmitted ∨ t = .itemDataMissing

/-- `isInteger` from `parse.go`. -/
def isInteger (t : itemType) : Bool := t = .itemDataInteger

/-- `isFloat` from `parse.go`. -/
def isFloat (t : itemType) : Bool := t = .itemDataFloat

/-- `parser.next`: pull one token, transparently skipping comments and
escalating scanner error tokens (with the still-unupdated line counter, as
in the source).  An empty list yields the fabricated EOF item, exactly as
`lexer.nextItem` does once the state machine has halted. -/
def nextTok : List item → Nat → Except String (item × List item × Nat)
  | [], _ => .ok (eofItem, [], 0)
  | t :: ts, line =>
    if t.typ = .itemComment then nextTok ts line
    else if t.typ = .itemError then .error (perrf line t.val)
    else .ok (t, ts, t.line)

/-- `parser.parseValue`: convert one value token to a `Value`. -/
def parseValue (t : item) (bname name : String) (line : Nat) :
    Except String Value :=
  match t.typ with
  | .itemDataOmitted => .ok (.cifString ".")
  | .itemDataMissing => .ok (.cifString "?")
  | .itemDataInteger =>
      match Atoi t.val with
      | .ok n => .ok (.cifInt n)
      | .error e => .error (perrf line
          ("Could not parse '" ++ t.val ++ "' as integer: " ++ e))
  | .itemDataFloat =>
      match ParseFloat t.val with
      | .ok f => .ok (.cifFloat f)
      | .error e => .error (perrf line
          ("Could not parse '" ++ t.val ++ "' as float: " ++ e))
  | .itemDataString => .ok (.cifString t.val)
  | other => .error (perrf line
      ("Expected value for data tag '" ++ name ++ "' in block '" ++ bname ++
       "', but got a '" ++ typeName other ++ "' instead."))

/-- `parser.assertUniqueTag`: a tag may not already exist among a block's
items or loops. -/
def assertUniqueTag (b : Block) (name : String) (line : Nat) :
    Except String Unit :=
  if (alookup b.Items name).isSome ∨ (alookup b.Loops name).isSome then
    .error (perrf line
      ("Data item with name '" ++ name ++ "' already exists in block '" ++
       b.Name ++ "'."))
  else .ok ()

/-- `loopValues` from `parse.go`: one column being accumulated — its tag,
its raw cell strings and the most restrictive item type seen so far. -/
structure loopValues where
  name : String
  strs : List String
  typ : itemType
  deriving DecidableEq, Repr

/-- The column-type update performed per consumed value token in
`parseLoop` (lines 553–564): the first token seeds the type; a differing
non-null token merges Integer/Float to Float and everything else to
String; null (omitted/missing) tokens leave the type alone. -/
def loopTypStep (typ : itemType) (t : itemType) : itemType :=
  if typ = .itemDataNone then t
  else if typ ≠ t ∧ ¬ isNull t then
    if (isInteger typ ∧ isFloat t) ∨ (isFloat typ ∧ isInteger t) then
      .itemDataFloat
    else .itemDataString
  else typ

/-- Replace the element at an index (Go's in-place slice update). -/
def updAt {α : Type} : List α → Nat → (α → α) → List α
  | [], _, _ => []
  | x :: xs, 0, f => f x :: xs
  | x :: xs, n + 1, f => x :: updAt xs n f

/-- `nextTok` consumes at least one token from a nonempty list, and maps
the empty list to itself with the fabricated EOF. -/
theorem nextTok_length {ts : List item} {line : Nat} {t' : item}
    {ts' : List item} {l' : Nat}
    (h : nextTok ts line = .ok (t', ts', l')) :
    ts'.length < ts.length ∨ (ts = [] ∧ ts' = [] ∧ t' = eofItem) := by
  induction ts generalizing line with
  | nil =>
      simp [nextTok] at h
      exact Or.inr ⟨rfl, h.2.1, h.1.symm⟩
  | cons x xs ih =>
      by_cases hc : x.typ = itemType.itemComment
      · simp only [nextTok, hc, if_pos rfl] at h
        rcases ih h with h1 | h2
        · exact Or.inl (Nat.lt_succ_of_lt h1)
        · rw [h2.2.1]
          exact Or.inl (Nat.succ_pos _)
      · by_cases he : x.typ = itemType.itemError
        · simp [nextTok, hc, he] at h
        · simp [nextTok, hc, he] at h
          rw [← h.2.1]
          exact Or.inl (Nat.lt_succ_self _)

/-- The tag-collecting loop of `parseLoop` (lines 531–539): starting from
the lookahead `t`, consume data tags, checking each against the block's
existing tag namespace, until a non-tag token appears.  The fuel only
bounds the iteration count; the caller passes more fuel than there are
tokens, which is always ample since every iteration consumes at least one
token. -/
def slurpTags : Nat → Block → List loopValues → item → List item → Nat →
    Except String (List loopValues × item × List item × Nat)
  | 0, _, _, _, _, line => .error (perrf line "BUG: parser ran out of fuel.")
  | fuel + 1, b, vals, t, ts, line =>
    if t.typ = .itemDataTag then
      let name := (strToLower t.val)
      match assertUniqueTag b name line with
      | .error e => .error e
      | .ok _ =>
        match nextTok ts line with
        | .error e => .error e
        | .ok (t', ts', l') =>
            slurpTags fuel b (vals ++ [⟨name, [], .itemDataNone⟩]) t' ts' l'
    else .ok (vals, t, ts, line)

/-- The value-consuming loop of `parseLoop` (lines 549–565): starting from
the lookahead `t`, consume value tokens, distributing them round-robin
over the columns and folding each token's kind into the column type via
`loopTypStep`; stop at the first non-value token.  Fuel as in
`slurpTags`. -/
def slurpValues : Nat → List loopValues → Nat → Nat → item → List item → Nat →
    Except String (List loopValues × item × List item × Nat × Nat)
  | 0, _, _, _, _, _, line => .error (perrf line "BUG: parser ran out of fuel.")
  | fuel + 1, vals, idx, count, t, ts, line =>
    if isValueType t.typ then
      let column := idx % vals.length
      let vals' := updAt vals column
        (fun v => ⟨v.name, v.strs ++ [t.val], loopTypStep v.typ t.typ⟩)
      match nextTok ts line with
      | .error e => .error e
      | .ok (t', ts', l') =>
          slurpValues fuel vals' (idx + 1) (count + 1) t' ts' l'
    else .ok (vals, t, ts, line, count)

/-- The integer branch of `convertLoopValues`: omitted/missing cells
materialize as `0`, everything else goes through `Atoi`. -/
def convIntCells (line : Nat) : List String → Except String (List Int)
  | [] => .ok []
  | s :: rest =>
    if s = "." ∨ s = "?" then
      match convIntCells line rest with
      | .error e => .error e
      | .ok ns => .ok (0 :: ns)
    else
      match Atoi s with
      | .error e => .error (perrf line
          ("Could not parse '" ++ s ++ "' as integer: " ++ e))
      | .ok n =>
        match convIntCells line rest with
        | .error e => .error e
        | .ok ns => .ok (n :: ns)

/-- The float branch of `convertLoopValues`: omitted/missing cells
materialize as numeric zero (literal `"0"`), everything else goes through
`ParseFloat`. -/
def convFloatCells (line : Nat) : List String → Except String (List String)
  | [] => .ok []
  | s :: rest =>
    if s = "." ∨ s = "?" then
      match convFloatCells line rest with
      | .error e => .error e
      | .ok ns => .ok ("0" :: ns)
    else
      match ParseFloat s with
      | .error e => .error (perrf line
          ("Could not parse '" ++ s ++ "' as float: " ++ e))
      | .ok f =>
        match convFloatCells line rest with
        | .error e => .error e
        | .ok ns => .ok (f :: ns)

/-- One column of `convertLoopValues`: the resolved Go slice type is
`[]string` when the accumulated type is omitted/missing/string, `[]int`
when integer, `[]float64` when float. -/
def convertColumn (bname : String) (line : Nat) (val : loopValues) :
    Except String ValueLoop :=
  match val.typ with
  | .itemDataOmitted => .ok (.cifStrings val.strs)
  | .itemDataMissing => .ok (.cifStrings val.strs)
  | .itemDataString => .ok (.cifStrings val.strs)
  | .itemDataInteger => (convIntCells line val.strs).map .cifInts
  | .itemDataFloat => (convFloatCells line val.strs).map .cifFloats
  | other => .error (perrf line
      ("Expected value for data tag '" ++ val.name ++ "' in block '" ++
       bname ++ "', but got a '" ++ typeName other ++ "' instead."))

/-- All columns of `convertLoopValues`, in order. -/
def convertColumns (bname : String) (line : Nat) :
    List loopValues → Except String (List ValueLoop)
  | [] => .ok []
  | v :: rest =>
    match convertColumn bname line v with
    | .error e => .error e
    | .ok col =>
      match convertColumns bname line rest with
      | .error e => .error e
      | .ok cols => .ok (col :: cols)

/-- `parser.convertLoopValues`: build the finished `Loop` and bind every
one of its tags, in the owning block's loop map, to that same loop.  (In
Go all these bindings alias one `*Loop`; with values, binding the one
finished `lp` everywhere is the same end state.) -/
def convertLoopValues (b : Block) (vals : List loopValues) (line : Nat) :
    Except String (Block × Loop) :=
  match convertColumns b.Name line vals with
  | .error e => .error e
  | .ok cols =>
    let lp : Loop :=
      ⟨vals.enum.foldl (fun m p => ainsert m p.2.name p.1) [], cols⟩
    let b' : Block :=
      { b with Loops := vals.foldl (fun lm v => ainsert lm v.name lp) b.Loops }
    .ok (b', lp)

/-- `parser.parseLoop`: one `loop_` table.  Returns the updated block, the
lookahead token that ended the value list, the remaining tokens and the
line counter. -/
def parseLoop (b : Block) (ts : List item) (line : Nat) :
    Except String (Block × item × List item × Nat) :=
  let loopLine := line
  match nextTok ts line with
  | .error e => .error e
  | .ok (t, ts, line) =>
    if t.typ ≠ .itemDataTag then
      .error (perrf line
        ("After 'loop_' declaration, there must be at least one data tag, " ++
         "but found '" ++ typeName t.typ ++ "' instead."))
    else
      match slurpTags (ts.length + 2) b [] t ts line with
      | .error e => .error e
      | .ok (vals, t, ts, line) =>
        if ¬ isValueType t.typ then
          .error (perrf line
            ("After 'loop_' declaration, there must be at least one data " ++
             "tag and at least one value, but found '" ++ typeName t.typ ++
             "' instead of a value."))
        else
          match slurpValues (ts.length + 2) vals 0 0 t ts line with
          | .error e => .error e
          | .ok (vals, t, ts, line, count) =>
            if count % vals.length ≠ 0 then
              .error (perrf line
                ("There are " ++ toString count ++
                 " values in loop (starting on line " ++ toString loopLine ++
                 "), which is not a multiple of the number of columns in " ++
                 "the loop (" ++ toString vals.length ++ ")."))
            else
              match convertLoopValues b vals line with
              | .error e => .error e
              | .ok (b', _) => .ok (b', t, ts, line)

/-- `parser.parseItemValue`: one `_tag value` item. -/
def parseItemValue (b : Block) (name : String) (ts : List item)
    (line : Nat) : Except String (Block × List item × Nat) :=
  match assertUniqueTag b name line with
  | .error e => .error e
  | .ok _ =>
    match nextTok ts line with
    | .error e => .error e
    | .ok (t, ts, line) =>
      match parseValue t b.Name name line with
      | .error e => .error e
      | .ok v => .ok ({ b with Items := ainsert b.Items name v }, ts, line)

/-- The body loop of `parseSaveFrame`.  The fuel only bounds the number of
iterations; it is always ample (the caller passes more fuel than there are
tokens, and every iteration consumes at least one token). -/
def parseSaveFrameBody : Nat → Block → item → List item → Nat →
    Except String (Block × List item × Nat)
  | 0, _, _, _, line => .error (perrf line "BUG: parser ran out of fuel.")
  | fuel + 1, frame, t, ts, line =>
    match t.typ with
    | .itemSaveFrameEnd => .ok (frame, ts, line)
    | .itemLoop =>
        match parseLoop frame ts line with
        | .error e => .error e
        | .ok (frame', t', ts', line') =>
            parseSaveFrameBody fuel frame' t' ts' line'
    | .itemDataTag =>
        match parseItemValue frame (strToLower t.val) ts line with
        | .error e => .error e
        | .ok (frame', ts', line') =>
          match nextTok ts' line' with
          | .error e => .error e
          | .ok (t', ts'', line'') =>
              parseSaveFrameBody fuel frame' t' ts'' line''
    | other => .error (perrf line
        ("Expected a data item or end of save frame delimiter, but got a '" ++
         typeName other ++ "' instead."))

/-- `parser.parseSaveFrame`: one save frame inside a data block. -/
def parseSaveFrame (dblock : DataBlock) (name : String) (ts : List item)
    (line : Nat) : Except String (DataBlock × List item × Nat) :=
  if (alookup dblock.Frames name).isSome then
    .error (perrf line
      ("Save frame with name '" ++ name ++ "' already exists in data " ++
       "block '" ++ dblock.Block.Name ++ "'."))
  else
    match nextTok ts line with
    | .error e => .error e
    | .ok (t, ts', line') =>
      match parseSaveFrameBody (ts.length + 2) ⟨name, [], []⟩ t ts' line' with
      | .error e => .error e
      | .ok (frameB, ts'', line'') =>
          .ok ({ dblock with Frames := ainsert dblock.Frames name ⟨frameB⟩ },
               ts'', line'')

/-- The body loop of `parseDataBlock` (fuel as in
`parseSaveFrameBody`). -/
def parseDataBlockBody : Nat → DataBlock → item → List item → Nat →
    Except String (DataBlock × item × List item × Nat)
  | 0, _, _, _, line => .error (perrf line "BUG: parser ran out of fuel.")
  | fuel + 1, dblock, t, ts, line =>
    match t.typ with
    | .itemEOF => .ok (dblock, t, ts, line)
    | .itemDataBlockStart => .ok (dblock, t, ts, line)
    | .itemSaveFrameStart =>
        match parseSaveFrame dblock (strToLower t.val) ts line with
        | .error e => .error e
        | .ok (dblock', ts', line') =>
          match nextTok ts' line' with
          | .error e => .error e
          | .ok (t', ts'', line'') =>
              parseDataBlockBody fuel dblock' t' ts'' line''
    | .itemLoop =>
        match parseLoop dblock.Block ts line with
        | .error e => .error e
        | .ok (b', t', ts', line') =>
            parseDataBlockBody fuel { dblock with Block := b' } t' ts' line'
    | .itemDataTag =>
        match parseItemValue dblock.Block (strToLower t.val) ts line with
        | .error e => .error e
        | .ok (b', ts', line') =>
          match nextTok ts' line' with
          | .error e => .error e
          | .ok (t', ts'', line'') =>
              parseDataBlockBody fuel { dblock with Block := b' } t' ts'' line''
    | other => .error (perrf line
        ("Expected comments, whitespace or a data block heading, but got " ++
         "a '" ++ typeName other ++ "' instead."))

/-- `parser.parseDataBlock`: one data block, starting after its heading
token.  A block with the same (lower-cased) name must not already exist. -/
def parseDataBlock (blocks : List (String × DataBlock)) (name : String)
    (ts : List item) (line : Nat) :
    Except String (List (String × DataBlock) × item × List item × Nat) :=
  if (alookup blocks name).isSome then
    .error (perrf line ("Data block with name '" ++ name ++
      "' already exists."))
  else
    match nextTok ts line with
    | .error e => .error e
    | .ok (t, ts', line') =>
      match parseDataBlockBody (ts.length + 2) ⟨⟨name, [], []⟩, []⟩ t ts' line' with
      | .error e => .error e
      | .ok (dblock, t', ts'', line'') =>
          .ok (ainsert blocks name dblock, t', ts'', line'')

/-- The top-level loop of `parser.parse`: version line, data blocks,
EOF. -/
def parseTop : Nat → CIF → item → List item → Nat → Except String CIF
  | 0, _, _, _, line => .error (perrf line "BUG: parser ran out of fuel.")
  | fuel + 1, cif, t, ts, line =>
    match t.typ with
    | .itemEOF => .ok cif
    | .itemDataBlockStart =>
        match parseDataBlock cif.Blocks (strToLower t.val) ts line with
        | .error e => .error e
        | .ok (blocks', t', ts', line') =>
            parseTop fuel { cif with Blocks := blocks' } t' ts' line'
    | .itemVersion =>
        let cif' := { cif with Version := t.val.drop 3 }
        match nextTok ts line with
        | .error e => .error e
        | .ok (t', ts', line') => parseTop fuel cif' t' ts' line'
    | other => .error (perrf line
        ("Expected comments, whitespace or a data block heading, but got " ++
         "a '" ++ typeName other ++ "' instead."))

/-- `parser.parse`, over an already-produced token list. -/
def parse (ts : List item) : Except String CIF :=
  match nextTok ts 0 with
  | .error e => .error e
  | .ok (t, ts', line') => parseTop (ts.length + 2) ⟨"", []⟩ t ts' line'

/-! ## The scanner (`lexer.go` and the state file)

Go represents a scanner state as a function value (`stateFn`); here each
state is a constructor of `stateId`, with captured arguments where the Go
closure captures data (the terminating quote of `lexValueQuoted`, the
predicate installed by `lexer.chars` into the package-global `pred`).
One invocation of a Go state function is one `lexStep`.  A Go state
function that *calls* another state function before returning (rather than
returning it) is split across two driver steps where that is observably
identical (no token is emitted in between). -/

/-- The predicate installed by `lexer.chars` (the package-global `pred`).
Only `isNonBlankChar` and `isPrintChar` are ever installed. -/
inductive PredId where
  | nonBlank
  | print
  deriving DecidableEq, Repr

def predOf : PredId → Char → Bool
  | .nonBlank => isNonBlankChar
  | .print => isPrintChar

/-- The scanner states.  Names follow the Go state functions.  (The unused
Go function `lexValueExponentEnd` is unreachable and has no state.) -/
inductive stateId where
  | lexCifInitial
  | lexCif
  | lexDataBlockHeading
  | lexSaveFrameHeading
  | lexSaveFrameEnd
  | lexDataBlocks
  | lexFirstSaveDataItem
  | lexSaveDataItems
  | lexDataItem
  | lexLoopStartWhiteSpace
  | lexLoopStart
  | lexLoopTags
  | lexLoopStartValue
  | lexLoopValues
  | lexDataTag
  | lexOneOrMore (p : PredId)
  | lexPred (p : PredId)
  | lexValue
  | lexValueEnd
  | lexValueIntegerStart
  | lexValueInteger
  | lexValueExponentFirst
  | lexValueExponent
  | lexValueFloatAfterDecimal
  | lexValueTextFieldFirstLine
  | lexValueTextField
  | lexValueUnquotedEnd
  | lexValueQuoted (q : Char)
  | lexVersion
  | lexSpaceOrEofContinue
  | lexWhiteSpaceContinue
  | lexComment
  deriving DecidableEq, Repr

/-- The rune `0` used by the scanner to signal end of input. -/
def eofChar : Char := Char.ofNat 0

/-- The `lexer` struct: input, token start, position, width of the last
consumed rune, 1-based line, the single emitted-token slot, and the stack
of continuation states.  The byte-based Go scanner and this character-list
model agree on ASCII input (the only input CIF permits). -/
structure Lexer where
  input : List Char
  start : Nat
  pos : Nat
  width : Nat
  line : Nat
  emitted : Option item
  stack : List stateId
  deriving Repr

/-- `lexer.next`. -/
def Lexer.nextc (lx : Lexer) : Char × Lexer :=
  if lx.pos < lx.input.length then
    let c := lx.input.getD lx.pos eofChar
    let lx := if c = '\n' then { lx with line := lx.line + 1 } else lx
    (c, { lx with width := 1, pos := lx.pos + 1 })
  else (eofChar, { lx with width := 0 })

/-- `lexer.backup`. -/
def Lexer.backup (lx : Lexer) : Lexer :=
  let p := lx.pos - lx.width
  let lx := { lx with pos := p }
  if p < lx.input.length ∧ lx.input.getD p eofChar = '\n' then
    { lx with line := lx.line - 1 }
  else lx

/-- `lexer.peek`. -/
def Lexer.peekc (lx : Lexer) : Char :=
  if lx.pos < lx.input.length then lx.input.getD lx.pos eofChar else eofChar

/-- `lexer.peekAt`. -/
def Lexer.peekAt (lx : Lexer) (length : Nat) : List Char :=
  if lx.pos ≥ lx.input.length then []
  else (lx.input.drop lx.pos).take length

/-- `lexer.aheadMatch`.  NB: the Go doc comment says "case insensitive",
but the implementation compares the characters exactly. -/
def Lexer.aheadMatch (lx : Lexer) (s : String) : Bool :=
  lx.peekAt s.length = s.toList

/-- `lexer.current`. -/
def Lexer.currentStr (lx : Lexer) : String :=
  ((lx.input.drop lx.start).take (lx.pos - lx.start)).asString

/-- `lexer.accept`. -/
def Lexer.accept (lx : Lexer) (valid : Char) : Bool × Lexer :=
  let rl := lx.nextc
  if rl.1 = valid then (true, rl.2) else (false, rl.2.backup)

/-- `lexer.ignore`. -/
def Lexer.ignoreTok (lx : Lexer) : Lexer := { lx with start := lx.pos }

/-- `lexer.emit`.  (Go would panic on a second emit before delivery; that
is unreachable, and the slot is simply overwritten here.) -/
def Lexer.emit (lx : Lexer) (typ : itemType) : Lexer :=
  { lx with emitted := some ⟨typ, lx.currentStr, lx.line⟩, start := lx.pos }

/-- `lexer.errf`: place an error token in the emitted slot.  The returned
state is `none` only at the call sites that `return` the result; the one
call site that ignores the result (`lexValueTextField`) keeps going. -/
def Lexer.seterr (lx : Lexer) (msg : String) : Lexer :=
  { lx with emitted := some ⟨.itemError, msg, lx.line⟩ }

/-- The rune escaping done by `lexer.errf` for message interpolation. -/
def showRune (r : Char) : String :=
  if r = '\n' then "\\n" else if r = eofChar then "EOF" else r.toString

/-- `lexer.push`. -/
def Lexer.push (lx : Lexer) (s : stateId) : Lexer :=
  { lx with stack := lx.stack ++ [s] }

/-- `lexer.pop`: used where Go writes `lx.pop()` in state position. -/
def Lexer.popState (lx : Lexer) : Lexer × Option stateId :=
  match lx.stack.getLast? with
  | none => (lx.seterr "BUG in lexer: no states to pop.", none)
  | some s => ({ lx with stack := lx.stack.dropLast }, some s)

/-- `lexer.stop`. -/
def Lexer.stop (lx : Lexer) : Lexer × Option stateId :=
  ((lx.ignoreTok.emit .itemEOF), none)

/-- `lexer.acceptStr`: consume the given characters (failing the lexer on
mismatch), discard them, and continue in the given state. -/
def Lexer.acceptStrGo (lx : Lexer) (s : List Char) (next : Option stateId) :
    Lexer × Option stateId :=
  match s with
  | [] => (lx.ignoreTok, next)
  | c :: rest =>
    let bl := lx.accept c
    if bl.1 then bl.2.acceptStrGo rest next
    else (bl.2.seterr ("Expected '" ++ showRune c ++ "' but got '" ++
            showRune bl.2.peekc ++ "' instead (in '" ++ s.asString ++ "')."),
          none)

/-- `lexWhiteSpace`: consume one mandatory whitespace character, then
continue skipping whitespace before the given state. -/
def lexWhiteSpaceFn (lx : Lexer) (nextState : stateId) :
    Lexer × Option stateId :=
  let rl := lx.nextc
  if ¬ isWhiteSpace rl.1 then
    (rl.2.seterr ("Expected white space, but got '" ++ showRune rl.1 ++
       "' instead."), none)
  else (rl.2.push nextState, some .lexWhiteSpaceContinue)

/-- The letters matched by `lexVersion` after the leading `#`: the scanner
recognizes exactly the version string `CIF_1.1`. -/
def versionLetters : List Char := ['\\', '#', 'C', 'I', 'F', '_', '1', '.', '1']

/-- The letter-matching loop of `lexVersion`: on the first mismatch the
line is consumed as an ordinary comment. -/
def lexVersionGo : Lexer → List Char → Lexer × Option stateId
  | lx, [] => (lx.emit .itemVersion, some .lexCif)
  | lx, c :: rest =>
    let rl := lx.nextc
    if rl.1 = c then lexVersionGo rl.2 rest
    else (rl.2.push .lexCif, some .lexComment)

/-- One step of the scanner: run the state function `s` on `lx`,
yielding the updated lexer and the next state (`none` = the Go state
function returned `nil`). -/
def lexStep (s : stateId) (lx : Lexer) : Lexer × Option stateId :=
  match s with
  | .lexCifInitial =>
    let rl := lx.nextc
    if rl.1 = '#' then (rl.2, some .lexVersion)
    else (rl.2.backup, some .lexCif)
  | .lexCif =>
    let r := lx.peekc
    if r = eofChar then lx.stop
    else if r = '#' ∨ isWhiteSpace r then
      ((lx.push .lexCif).ignoreTok, some .lexWhiteSpaceContinue)
    else if listToLower (lx.peekAt 5) = "data_".toList then
      let s5 := lx.peekAt 5
      (lx.push .lexDataBlockHeading).acceptStrGo s5
        (some (.lexOneOrMore .nonBlank))
    else (lx, none)
  | .lexDataBlockHeading =>
    let lx := lx.emit .itemDataBlockStart
    (lx.push .lexDataBlocks, some .lexSpaceOrEofContinue)
  | .lexSaveFrameHeading =>
    let lx := lx.emit .itemSaveFrameStart
    lexWhiteSpaceFn lx .lexFirstSaveDataItem
  | .lexSaveFrameEnd =>
    if listToLower (lx.peekAt 5) = "save_".toList then
      let s5 := lx.peekAt 5
      let lx := lx.emit .itemSaveFrameEnd
      (lx.push .lexDataBlocks).acceptStrGo s5 (some .lexSpaceOrEofContinue)
    else
      (lx.seterr ("Expected 'save_' at end of save frame, but got '" ++
        (lx.peekAt 5).asString ++ "' instead."), none)
  | .lexDataBlocks =>
    let r := lx.peekc
    if isWhiteSpace r then lexWhiteSpaceFn lx .lexDataBlocks
    else if r = eofChar then lx.stop
    else if lx.aheadMatch "global_" then
      (lx.seterr "global_ is not supported in the CIF format.", none)
    else if lx.aheadMatch "stop_" then
      (lx.seterr "stop_ is not supported in the CIF format.", none)
    else if listToLower (lx.peekAt 5) = "data_".toList then
      let s5 := lx.peekAt 5
      (lx.push .lexDataBlockHeading).acceptStrGo s5
        (some (.lexOneOrMore .nonBlank))
    else if listToLower (lx.peekAt 5) = "save_".toList then
      let s5 := lx.peekAt 5
      (lx.push .lexSaveFrameHeading).acceptStrGo s5
        (some (.lexOneOrMore .nonBlank))
    else (lx.push .lexDataBlocks, some .lexDataItem)
  | .lexFirstSaveDataItem =>
    (lx.push .lexSaveDataItems, some .lexDataItem)
  | .lexSaveDataItems =>
    if lx.aheadMatch "save_" then (lx, some .lexSaveFrameEnd)
    else if lx.peekc = '_' ∨ lx.aheadMatch "loop_" then
      (lx.push .lexSaveDataItems, some .lexDataItem)
    else
      (lx.seterr ("Expected either a data item or the end of a save " ++
        "frame, but got '" ++ showRune lx.peekc ++ "' instead."), none)
  | .lexDataItem =>
    if listToLower (lx.peekAt 5) = "loop_".toList then
      let s5 := lx.peekAt 5
      let lx := lx.ignoreTok.emit .itemLoop
      lx.acceptStrGo s5 (some .lexLoopStartWhiteSpace)
    else
      let rl := lx.nextc
      if rl.1 ≠ '_' then
        (rl.2.seterr ("Expected data item name starting with '_' but got '" ++
          showRune rl.1 ++ "' instead. (Strings with spaces must be quoted " ++
          "and all data keys must begin with an underscore.)"), none)
      else
        let lx := rl.2.ignoreTok
        let lx := (lx.push .lexValue).push .lexDataTag
        (lx, some (.lexOneOrMore .nonBlank))
  | .lexLoopStartWhiteSpace => lexWhiteSpaceFn lx .lexLoopStart
  | .lexLoopStart =>
    let rl := lx.nextc
    if rl.1 ≠ '_' then
      (rl.2.seterr ("Every 'loop_' section must have at least one data " ++
        "tag defined (starting with a '_'), but found '" ++ showRune rl.1 ++
        "' instead."), none)
    else
      let lx := rl.2.ignoreTok
      let lx := (lx.push .lexLoopTags).push .lexDataTag
      (lx, some (.lexOneOrMore .nonBlank))
  | .lexLoopTags =>
    if lx.peekc = '_' then
      let rl := lx.nextc
      let lx := rl.2.ignoreTok
      let lx := (lx.push .lexLoopTags).push .lexDataTag
      (lx, some (.lexOneOrMore .nonBlank))
    else (lx, some .lexLoopStartValue)
  | .lexLoopStartValue => (lx.push .lexLoopValues, some .lexValue)
  | .lexLoopValues =>
    let r := lx.peekc
    let peek5 := lx.peekAt 5
    if r = '_' then lx.popState
    else if (r = 'd' ∨ r = 's' ∨ r = 'l') ∧
        (peek5 = "data_".toList ∨ peek5 = "save_".toList ∨
         peek5 = "loop_".toList) then
      lx.popState
    else if r = eofChar then lx.stop
    else (lx.push .lexLoopValues, some .lexValue)
  | .lexDataTag =>
    let lx := lx.emit .itemDataTag
    match lx.popState with
    | (lx, none) => (lx, none)
    | (lx, some nxt) => lexWhiteSpaceFn lx nxt
  | .lexOneOrMore p =>
    let rl := lx.nextc
    if ¬ predOf p rl.1 then
      (rl.2.seterr ("Expected at least one character, but got '" ++
        showRune rl.1 ++ "' instead."), none)
    else (rl.2, some (.lexPred p))
  | .lexPred p =>
    let rl := lx.nextc
    if ¬ predOf p rl.1 then rl.2.backup.popState
    else (rl.2, some (.lexPred p))
  | .lexValue =>
    let lx := lx.backup
    let pl := lx.nextc
    let previous := pl.1
    let lx := pl.2
    if lx.aheadMatch "data_" then
      (lx.seterr "data_ cannot be used in the beginning of an unquoted value.",
       none)
    else if lx.aheadMatch "save_" then
      (lx.seterr "save_ cannot be used in the beginning of an unquoted value.",
       none)
    else
      let rl := lx.nextc
      let r := rl.1
      let lx := rl.2
      if r = '.' ∧ (isWhiteSpace lx.peekc ∨ lx.peekc = eofChar) then
        let lx := lx.emit .itemDataOmitted
        (lx.push .lexValueEnd, some .lexSpaceOrEofContinue)
      else if r = '?' then
        let lx := lx.emit .itemDataMissing
        (lx.push .lexValueEnd, some .lexSpaceOrEofContinue)
      else if r = '+' ∨ r = '-' then (lx, some .lexValueIntegerStart)
      else if isDigit r then (lx, some .lexValueInteger)
      else if r = '.' then (lx, some .lexValueFloatAfterDecimal)
      else if r = '\'' ∨ r = '"' then
        (lx.ignoreTok, some (.lexValueQuoted r))
      else if isNL previous ∧ r = ';' then
        (lx.ignoreTok, some .lexValueTextFieldFirstLine)
      else if isNL previous ∧ isOrdinaryChar r then
        (lx.push .lexValueUnquotedEnd, some (.lexPred .nonBlank))
      else if ¬ isNL previous ∧ (isOrdinaryChar r ∨ r = ';') then
        (lx.push .lexValueUnquotedEnd, some (.lexPred .nonBlank))
      else
        (lx.seterr ("Expected a value ('.', '?', numeric or string), " ++
          "but got '" ++ showRune r ++ "'."), none)
  | .lexValueEnd =>
    match lx.popState with
    | (lx, none) => (lx, none)
    | (lx, some nxt) => lexWhiteSpaceFn lx nxt
  | .lexValueIntegerStart =>
    let r := lx.peekc
    if isDigit r then ((lx.accept r).2, some .lexValueInteger)
    else if r = '.' then ((lx.accept r).2, some .lexValueFloatAfterDecimal)
    else (lx.push .lexValueUnquotedEnd, some (.lexPred .nonBlank))
  | .lexValueInteger =>
    let r := lx.peekc
    if isDigit r then ((lx.accept r).2, some .lexValueInteger)
    else if r = '.' then ((lx.accept r).2, some .lexValueFloatAfterDecimal)
    else if r = 'e' ∨ r = 'E' then
      ((lx.accept r).2, some .lexValueExponentFirst)
    else if isWhiteSpace r ∨ r = eofChar then
      let lx := lx.emit .itemDataInteger
      (lx.push .lexValueEnd, some .lexSpaceOrEofContinue)
    else (lx.push .lexValueUnquotedEnd, some (.lexPred .nonBlank))
  | .lexValueExponentFirst =>
    let r := lx.peekc
    let lx := if r = '+' ∨ r = '-' then (lx.accept r).2 else lx
    (lx, some .lexValueExponent)
  | .lexValueExponent =>
    let r := lx.peekc
    if isDigit r then ((lx.accept r).2, some .lexValueExponent)
    else if isWhiteSpace r ∨ r = eofChar then
      let lx := lx.emit .itemDataFloat
      (lx.push .lexValueEnd, some .lexSpaceOrEofContinue)
    else (lx.push .lexValueUnquotedEnd, some (.lexPred .nonBlank))
  | .lexValueFloatAfterDecimal =>
    let r := lx.peekc
    if isDigit r then ((lx.accept r).2, some .lexValueFloatAfterDecimal)
    else if r = 'e' ∨ r = 'E' then
      ((lx.accept r).2, some .lexValueExponentFirst)
    else if isWhiteSpace r ∨ r = eofChar then
      let lx := lx.emit .itemDataFloat
      (lx.push .lexValueEnd, some .lexSpaceOrEofContinue)
    else (lx.push .lexValueUnquotedEnd, some (.lexPred .nonBlank))
  | .lexValueTextFieldFirstLine =>
    (lx.push .lexValueTextField, some (.lexPred .print))
  | .lexValueTextField =>
    let s2 := lx.peekAt 2
    if s2.length = 2 ∧ isNL (s2.getD 0 eofChar) ∧ s2.getD 1 eofChar = ';' then
      let lx := lx.emit .itemDataString
      (lx.push .lexValueEnd).acceptStrGo s2 (some .lexSpaceOrEofContinue)
    else if s2.length < 2 then
      (lx.seterr "Expected a semi-colon terminator, but got EOF.", none)
    else
      let rl := lx.nextc
      let lx :=
        if ¬ isNL rl.1 then
          rl.2.seterr ("Expected at a new line before end of semi-colon " ++
            "text field, but got '" ++ showRune rl.1 ++ "' instead.")
        else rl.2
      if isNL lx.peekc then (lx, some .lexValueTextField)
      else (lx.push .lexValueTextField, some (.lexOneOrMore .print))
  | .lexValueUnquotedEnd =>
    let cur := strToLower lx.currentStr
    if cur = "loop_" then
      (lx.seterr "loop_ cannot be used as an unquoted string value.", none)
    else if cur = "stop_" then
      (lx.seterr "stop_ cannot be used as an unquoted string value.", none)
    else if cur = "global_" then
      (lx.seterr "global_ cannot be used as an unquoted string value.", none)
    else
      let lx := lx.emit .itemDataString
      (lx.push .lexValueEnd, some .lexSpaceOrEofContinue)
  | .lexValueQuoted q =>
    let rl := lx.nextc
    let r := rl.1
    let lx := rl.2
    if isNL r then (lx.seterr "Quoted strings may not contain new lines.", none)
    else if r = eofChar then
      (lx.seterr "Expected end of quoted string, but got EOF.", none)
    else
      let peek1 := lx.peekAt 1
      if r = q ∧ (peek1.length = 0 ∨ isWhiteSpace (peek1.getD 0 eofChar)) then
        let lx := lx.backup.emit .itemDataString
        let lx := ((lx.accept r).2).ignoreTok
        (lx.push .lexValueEnd, some .lexSpaceOrEofContinue)
      else (lx, some (.lexValueQuoted q))
  | .lexVersion => lexVersionGo lx versionLetters
  | .lexSpaceOrEofContinue =>
    let r := lx.peekc
    if ¬ isWhiteSpace r ∧ r ≠ eofChar then
      (lx.seterr ("Expected whitespace or EOF, but got '" ++ showRune r ++
        "' instead."), none)
    else if r = eofChar then lx.stop
    else lx.popState
  | .lexWhiteSpaceContinue =>
    let rl := lx.nextc
    let r := rl.1
    let lx := rl.2
    if r = '#' then (lx.ignoreTok, some .lexComment)
    else if ¬ isWhiteSpace r then lx.backup.ignoreTok.popState
    else (lx.ignoreTok, some .lexWhiteSpaceContinue)
  | .lexComment =>
    let r := lx.peekc
    if isNL r ∨ r = eofChar then
      (lx.emit .itemComment, some .lexWhiteSpaceContinue)
    else ((lx.accept r).2, some .lexComment)

/-- `lexer.nextItem`: drive the state machine until a token is pending or
the machine halts.  When the machine has halted (`state == nil`), a fresh
`item{itemEOF, "", 0}` is returned — note that this is checked *before*
the pending-token slot, so a token emitted by a state that then halted
(`errf`, `stop`) is discarded and EOF is returned in its place.  The fuel
only bounds this driver loop and is always ample in practice. -/
def nextItem : Nat → Lexer → Option stateId → item × Lexer × Option stateId
  | 0, lx, st => (⟨.itemError, "BUG: lexer ran out of fuel.", 0⟩, lx, st)
  | fuel + 1, lx, st =>
    match st with
    | none => (eofItem, lx, none)
    | some s =>
      match lx.emitted with
      | some it => (it, { lx with emitted := none }, some s)
      | none =>
        let ls := lexStep s lx
        nextItem fuel ls.1 ls.2

/-- Collect the token sequence the parser will consume: tokens up to (and
excluding) the first EOF — the parser fabricates EOFs past the end — and
up to (and including) the first error token. -/
def lexAll : Nat → Lexer → Option stateId → List item
  | 0, _, _ => [⟨.itemError, "BUG: lexer ran out of fuel.", 0⟩]
  | fuel + 1, lx, st =>
    let r := nextItem (6 * (lx.input.length + 8)) lx st
    if r.1.typ = .itemEOF then []
    else if r.1.typ = .itemError then [r.1]
    else r.1 :: lexAll fuel r.2.1 r.2.2

/-- `lex`: a fresh lexer on the given input. -/
def lexInit (input : List Char) : Lexer := ⟨input, 0, 0, 0, 1, none, []⟩

/-- The token sequence of an input string. -/
def tokens (input : String) : List item :=
  lexAll (input.length + 8) (lexInit input.toList) (some .lexCifInitial)

/-- `Read`: parse CIF formatted input into a `CIF` document. -/
def Read (input : String) : Except String CIF := parse (tokens input)

/-! ## The writer (`write.go`)

Output is accumulated in a `String` (Go writes to an `io.Writer`; the
in-memory sink never fails, so the `w.pf` sink-error branch does not
arise here).  The Go panic values are modeled by `WPanic`, with the
output flushed before the panic carried along, since Go's incremental
writes are not retracted by a panic. -/

/-- The two panic payload types of the writer/parser: `cifError` (the
parser's) and `writeError` (the writer's), each carrying the output
already flushed when the panic happened. -/
inductive WPanic where
  | cifErr (out msg : String)
  | writeErr (out msg : String)
  deriving DecidableEq, Repr

/-- An optional leading `+`/`-` sign (`(\+|-)?` in the numeric patterns). -/
def stripSign (w : List Char) : List Char :=
  match w with
  | [] => []
  | c :: r => if c = '+' ∨ c = '-' then r else c :: r

/-- `[eE](\+|-)?[0-9]+`, consuming the whole list. -/
def expPart (l : List Char) : Bool :=
  match l with
  | [] => false
  | c :: r4 =>
    if c = 'e' ∨ c = 'E' then
      let r5 := stripSign r4
      (! r5.isEmpty) && r5.all isDigit
    else false

/-- `\.[0-9]*([eE](\+|-)?[0-9]+)?`, consuming the whole list. -/
def num1Frac (l : List Char) : Bool :=
  match l with
  | [] => false
  | c :: r2 =>
    if c = '.' then
      let r3 := r2.dropWhile isDigit
      r3.isEmpty || expPart r3
    else false

/-- Full (anchored) match of `(\+|-)?[0-9]+(\.[0-9]*([eE](\+|-)?[0-9]+)?)?`
(the pattern of `matchNumeric1`).  Greedy deterministic matching coincides
with the regex language here: each optional group is triggered by a
character (`.`/`e`/`E`) that cannot continue the preceding digit run. -/
def num1Full (w : List Char) : Bool :=
  let w1 := stripSign w
  (! (w1.takeWhile isDigit).isEmpty) &&
    ((w1.dropWhile isDigit).isEmpty || num1Frac (w1.dropWhile isDigit))

/-- Full (anchored) match of `(\+|-)?\.[0-9]+([eE](\+|-)?[0-9]+)?`
(the pattern of `matchNumeric2`). -/
def num2Full (w : List Char) : Bool :=
  match stripSign w with
  | c :: r2 =>
    if c = '.' then
      (! (r2.takeWhile isDigit).isEmpty) &&
        ((r2.dropWhile isDigit).isEmpty || expPart (r2.dropWhile isDigit))
    else false
  | [] => false

/-- Go's `Regexp.MatchString`: does any substring match?  (The patterns
cannot match the empty string, both requiring at least one digit.) -/
def containsMatch (p : List Char → Bool) (s : List Char) : Bool :=
  s.tails.any (fun t => t.inits.any p)

/-- The `which` variable of `formatStr` ("unquoted" / "single" / "double"
/ "text"). -/
inductive Quoting where
  | unquoted
  | single
  | double
  | text
  deriving DecidableEq, Repr

/-- The character scan of `formatStr` (lines 159–194): `seenDouble` and
`seenSingle` track quote characters seen so far; reaching the text-field
decision breaks the loop. -/
def formatStrScan : List Char → Bool → Bool → Quoting → Except String Quoting
  | [], _, _, which => .ok which
  | r :: rest, seenDouble, seenSingle, which =>
    if isNL r then .ok .text
    else if r = '"' then
      if seenSingle then .ok .text
      else formatStrScan rest true seenSingle .single
    else if r = '\'' then
      if seenDouble then .ok .text
      else formatStrScan rest seenDouble true .double
    else if ¬ isOrdinaryChar r then
      if seenDouble ∧ seenSingle then .ok .text
      else if seenDouble then formatStrScan rest seenDouble seenSingle .single
      else formatStrScan rest seenDouble seenSingle .double
    else if ¬ isPrintChar r then
      .error ("CIF write: The character '" ++ r.toString ++
        "' is not a valid printable character in the CIF 1.1 specification.")
    else formatStrScan rest seenDouble seenSingle which

/-- `writer.formatStr`: decide how to quote a string scalar.  A string
that "looks numeric" — `MatchString`, i.e. *any substring* matches one of
the numeric patterns — is double-quoted up front. -/
def formatStr (s : String) : Except String String :=
  if containsMatch num1Full s.toList ∨ containsMatch num2Full s.toList then
    .ok ("\"" ++ s ++ "\"")
  else
    match formatStrScan s.toList false false .unquoted with
    | .error e => .error e
    | .ok .unquoted => .ok s
    | .ok .single => .ok ("'" ++ s ++ "'")
    | .ok .double => .ok ("\"" ++ s ++ "\"")
    | .ok .text => .ok ("\n;" ++ s ++ "\n;")

/-- Go's `%f` formatting of a `float64` is abstracted as the stored
literal (see the file header); no theorem in this file evaluates it. -/
def formatFloatF (lit : String) : String := lit

/-- `writer.valToStr`.  The Go `default` branch (unsupported dynamic
type) is unreachable for the closed `Value` sum. -/
def valToStr (v : Value) : Except String String :=
  match v with
  | .cifString s => formatStr s
  | .cifInt n => .ok (toString n)
  | .cifFloat lit => .ok (formatFloatF lit)

/-- `loopEqual`: two loops (from one block) are the same table iff they
share a tag. -/
def loopEqual (lp1 lp2 : Loop) : Bool :=
  lp1.Columns.any (fun kv => (alookup lp2.Columns kv.1).isSome)

/-- `loopWritten`. -/
def loopWritten (written : List Loop) (t : Loop) : Bool :=
  written.any (fun lp => loopEqual lp t)

/-- Format every cell of a string column (`formatStr` per cell). -/
def formatStrList : List String → Except String (List String)
  | [] => .ok []
  | s :: rest =>
    match formatStr s with
    | .error e => .error e
    | .ok f =>
      match formatStrList rest with
      | .error e => .error e
      | .ok fs => .ok (f :: fs)

/-- One column of `writeLoop`, as display strings. -/
def colStrs : ValueLoop → Except String (List String)
  | .cifStrings l => formatStrList l
  | .cifInts l => .ok (l.map (fun n => toString n))
  | .cifFloats l => .ok (l.map formatFloatF)

/-- All columns of `writeLoop`, as display strings. -/
def colStrsAll : List ValueLoop → Except String (List (List String))
  | [] => .ok []
  | c :: rest =>
    match colStrs c with
    | .error e => .error e
    | .ok l =>
      match colStrsAll rest with
      | .error e => .error e
      | .ok ls => .ok (l :: ls)

/-- One output row of `writeLoop`: cells separated by two spaces.  A Go
index out of range (ragged or empty columns, impossible for parsed
documents) is replaced by the empty string. -/
def rowStr (strs : List (List String)) (row : Nat) : String :=
  String.intercalate "  " (strs.map (fun col => col.getD row ""))

/-- The row-printing loop of `writeLoop`. -/
def rowsStr (strs : List (List String)) : Nat → String
  | 0 => ""
  | n + 1 => rowsStr strs n ++ rowStr strs n ++ "\n"

/-- `writer.writeLoop`: the `loop_` line, each tag in stored column
order, then the rows. -/
def writeLoop (out : String) (lp : Loop) : Except WPanic String :=
  let out := out ++ "loop_\n"
  let order : Nat → String := fun i =>
    ((lp.Columns.find? (fun kv => kv.2 == i)).map (fun kv => kv.1)).getD ""
  let out := (List.range lp.Values.length).foldl
    (fun o i => o ++ "_" ++ order i ++ "\n") out
  match colStrsAll lp.Values with
  | .error e => .error (.writeErr out e)
  | .ok strs => .ok (out ++ rowsStr strs (strs.getD 0 []).length)

/-- The item-emitting loop of `writeBlock`: `_tag    value`. -/
def writeItems (out : String) : List (String × Value) → Except WPanic String
  | [] => .ok out
  | (tag, val) :: rest =>
    match valToStr val with
    | .error e => .error (.writeErr out e)
    | .ok s => writeItems (out ++ "_" ++ tag ++ "    " ++ s ++ "\n") rest

/-- The loop-emitting loop of `writeBlock`: each distinct table once,
deduplicated via `loopWritten`. -/
def writeLoops (out : String) (written : List Loop) :
    List (String × Loop) → Except WPanic String
  | [] => .ok out
  | (_, lp) :: rest =>
    if loopWritten written lp then writeLoops out written rest
    else
      match writeLoop out lp with
      | .error e => .error e
      | .ok out' => writeLoops out' (written ++ [lp]) rest

/-- `writer.writeBlock`: all items, then every distinct table once. -/
def writeBlock (out : String) (b : Block) : Except WPanic String :=
  match writeItems out b.Items with
  | .error e => .error e
  | .ok out' => writeLoops out' [] b.Loops

/-- The save-frame loop of `writeDataBlock`. -/
def writeFrames (out : String) : List (String × SaveFrame) → Except WPanic String
  | [] => .ok out
  | (_, frame) :: rest =>
    match writeBlock (out ++ "save_" ++ frame.Block.Name ++ "\n") frame.Block with
    | .error e => .error e
    | .ok out' => writeFrames (out' ++ "save_\n") rest

/-- `writer.writeDataBlock`: heading, save frames, then the block's own
body. -/
def writeDataBlock (out : String) (b : DataBlock) : Except WPanic String :=
  match writeFrames (out ++ "data_" ++ b.Block.Name ++ "\n") b.Frames with
  | .error e => .error e
  | .ok out' => writeBlock out' b.Block

/-- The data-block loop of `writer.write`. -/
def writeBlocks (out : String) : List (String × DataBlock) → Except WPanic String
  | [] => .ok out
  | (_, b) :: rest =>
    match writeDataBlock out b with
    | .error e => .error e
    | .ok out' => writeBlocks out' rest

/-- `writer.write` minus the deferred recover: version line first (when
set), then every data block. -/
def writeTop (cif : CIF) : Except WPanic String :=
  let out := if 0 < cif.Version.length then "#\\#" ++ cif.Version ++ "\n" else ""
  writeBlocks out cif.Blocks

/-- `CIF.Write`: run the writer and apply the `recover` in `write()`.
The recover type-asserts `cifError` — the *parser's* panic type — so a
`writeError` panic (every panic the writer actually raises) is recovered
but not converted: `Write` then returns a nil error.  The result is the
flushed output paired with the surfaced error, if any. -/
def Write (cif : CIF) : String × Option String :=
  match writeTop cif with
  | .ok out => (out, none)
  | .error (.cifErr out msg) => (out, some msg)
  | .error (.writeErr out msg) => (out, none)

/-! ## Writer helper lemmas -/

/-- Ordinary characters are printable. -/
theorem ordinary_print {r : Char} (h : isOrdinaryChar r = true) :
    isPrintChar r = true := by
  unfold isPrintChar isTextLeadChar
  simp only [decide_eq_true_eq]
  exact Or.inl (Or.inl h)

/-- The scan loop of `formatStr` never raises the disallowed-character
error: the non-ordinary case claims every non-printable character before
the check is reached. -/
theorem formatStrScan_total (cs : List Char) :
    ∀ (d s' : Bool) (w : Quoting), ∃ q, formatStrScan cs d s' w = .ok q := by
  induction cs with
  | nil => intro d s' w; exact ⟨w, rfl⟩
  | cons r rest ih =>
    intro d s' w
    simp only [formatStrScan]
    by_cases h1 : isNL r = true
    · rw [if_pos h1]; exact ⟨_, rfl⟩
    · rw [if_neg h1]
      by_cases h2 : r = '"'
      · rw [if_pos h2]
        cases s'
        · obtain ⟨q, hq⟩ := ih true false .single
          rw [if_neg (by simp)]
          exact ⟨q, hq⟩
        · rw [if_pos rfl]; exact ⟨_, rfl⟩
      · rw [if_neg h2]
        by_cases h4 : r = '\''
        · rw [if_pos h4]
          cases d
          · obtain ⟨q, hq⟩ := ih false true .double
            rw [if_neg (by simp)]
            exact ⟨q, hq⟩
          · rw [if_pos rfl]; exact ⟨_, rfl⟩
        · rw [if_neg h4]
          by_cases h6 : isOrdinaryChar r = true
          · rw [if_neg (not_not_intro h6)]
            rw [if_neg (not_not_intro (ordinary_print h6))]
            exact ih d s' w
          · rw [if_pos h6]
            cases d <;> cases s'
            · obtain ⟨q, hq⟩ := ih false false .double
              rw [if_neg (by simp), if_neg (by simp)]
              exact ⟨q, hq⟩
            · obtain ⟨q, hq⟩ := ih false true .double
              rw [if_neg (by simp), if_neg (by simp)]
              exact ⟨q, hq⟩
            · obtain ⟨q, hq⟩ := ih true false .single
              rw [if_neg (by simp), if_pos rfl]
              exact ⟨q, hq⟩
            · rw [if_pos ⟨rfl, rfl⟩]
              exact ⟨_, rfl⟩

/-- `formatStr` never returns an error. -/
theorem formatStr_total (s : String) : ∃ t, formatStr s = .ok t := by
  unfold formatStr
  by_cases h : (containsMatch num1Full s.toList ∨
      containsMatch num2Full s.toList)
  · rw [if_pos h]; exact ⟨_, rfl⟩
  · rw [if_neg h]
    obtain ⟨q, hq⟩ := formatStrScan_total s.toList false false .unquoted
    rw [hq]
    cases q <;> exact ⟨_, rfl⟩

/-- Stripping a sign keeps one inside the original list. -/
theorem stripSign_subset {w : List Char} : ∀ x ∈ stripSign w, x ∈ w := by
  intro x hx
  cases w with
  | nil => simpa [stripSign] using hx
  | cons c r =>
    simp only [stripSign] at hx
    by_cases hc : c = '+' ∨ c = '-'
    · rw [if_pos hc] at hx
      exact List.mem_cons_of_mem c hx
    · rwa [if_neg hc] at hx

/-- A single digit is a full match of the first numeric pattern. -/
theorem digit_num1 {d : Char} (h : isDigit d = true) : num1Full [d] = true := by
  have hp : ¬ (d = '+' ∨ d = '-') := by
    rintro (rfl | rfl) <;> revert h <;> decide
  simp only [num1Full, stripSign]
  rw [if_neg hp]
  simp [List.takeWhile, List.dropWhile, h]

/-- A full match of the first numeric pattern contains a digit. -/
theorem num1_has_digit {w : List Char} (h : num1Full w = true) :
    w.any isDigit = true := by
  simp only [num1Full] at h
  rcases hsw : stripSign w with _ | ⟨a, l⟩ <;> rw [hsw] at h
  · simp [List.takeWhile] at h
  · by_cases hp : isDigit a = true
    · exact List.any_eq_true.2 ⟨a,
        stripSign_subset a (by rw [hsw]; exact List.mem_cons_self a l), hp⟩
    · simp [List.takeWhile_cons, hp] at h

/-- A full match of the second numeric pattern contains a digit. -/
theorem num2_has_digit {w : List Char} (h : num2Full w = true) :
    w.any isDigit = true := by
  simp only [num2Full] at h
  rcases hsw : stripSign w with _ | ⟨a, l⟩ <;> rw [hsw] at h <;> dsimp only at h
  · simp at h
  · by_cases ha : a = '.'
    · rw [if_pos ha] at h
      rcases hl : l with _ | ⟨b, l'⟩ <;> rw [hl] at h
      · simp [List.takeWhile] at h
      · by_cases hp : isDigit b = true
        · exact List.any_eq_true.2 ⟨b, stripSign_subset b
            (by rw [hsw, hl]
                exact List.mem_cons_of_mem a (List.mem_cons_self b l')), hp⟩
        · simp [List.takeWhile_cons, hp] at h
    · rw [if_neg ha] at h
      simp at h

/-- `MatchString` of the two numeric patterns holds exactly when the
string contains a decimal digit. -/
theorem containsMatch_iff_digit (cs : List Char) :
    (containsMatch num1Full cs = true ∨ containsMatch num2Full cs = true) ↔
      cs.any isDigit = true := by
  constructor
  · rintro (h | h) <;>
    · obtain ⟨t, ht, hu⟩ := List.any_eq_true.1 h
      obtain ⟨u, hui, hp⟩ := List.any_eq_true.1 hu
      have hdig := (by first
        | exact num1_has_digit hp
        | exact num2_has_digit hp : u.any isDigit = true)
      obtain ⟨d, hd, hdd⟩ := List.any_eq_true.1 hdig
      have h1 : u <+: t := (List.mem_inits u t).1 hui
      have h2 : t <:+ cs := (List.mem_tails t cs).1 ht
      have hdt : d ∈ t := h1.subset hd
      exact List.any_eq_true.2 ⟨d, h2.subset hdt, hdd⟩
  · intro h
    obtain ⟨d, hd, hdd⟩ := List.any_eq_true.1 h
    obtain ⟨l1, l2, rfl⟩ := List.append_of_mem hd
    left
    refine List.any_eq_true.2 ⟨d :: l2, ?_, ?_⟩
    · exact (List.mem_tails _ _).2 ⟨l1, rfl⟩
    · exact List.any_eq_true.2 ⟨[d], (List.mem_inits _ _).2 ⟨l2, rfl⟩,
        digit_num1 hdd⟩

/-- Does the list contain this character? -/
def hasChar (cs : List Char) (c : Char) : Bool := cs.any (fun x => x = c)

/-- The claim-side quoting classification, amended to the code: a string
containing a digit is double-quoted up front (the writer's unanchored
`MatchString`); otherwise a newline or both quote kinds force a text
field; a double quote (alone) forces single quotes; a single quote or any
non-ordinary character (e.g. a space) forces double quotes; all-ordinary
content is unquoted. -/
def quotingSpec (s : String) : String :=
  let cs := s.toList
  if cs.any isDigit then "\"" ++ s ++ "\""
  else if cs.any isNL || (hasChar cs '"' && hasChar cs '\'') then
    "\n;" ++ s ++ "\n;"
  else if hasChar cs '"' then "'" ++ s ++ "'"
  else if hasChar cs '\'' || cs.any (fun c => ! isOrdinaryChar c) then
    "\"" ++ s ++ "\""
  else s

/-- From the single-quote-decided state (a double quote was seen, no
single quote yet), only a newline or a single quote can change the
verdict, to a text field. -/
theorem formatStrScan_single (cs : List Char) :
    formatStrScan cs true false .single =
      .ok (if cs.any isNL || hasChar cs '\'' then .text else .single) := by
  induction cs with
  | nil => simp [formatStrScan, hasChar]
  | cons r rest ih =>
    by_cases h1 : isNL r = true
    · simp [formatStrScan, h1, List.any_cons]
    · by_cases h2 : r = '"'
      · subst h2
        simp [formatStrScan, h1, ih, hasChar, List.any_cons]
      · by_cases h4 : r = '\''
        · subst h4
          simp [formatStrScan, h1, hasChar, List.any_cons]
        · by_cases h6 : isOrdinaryChar r = true
          · simp [formatStrScan, h1, h2, h4, h6, ordinary_print h6, ih,
              hasChar, List.any_cons]
          · simp [formatStrScan, h1, h2, h4, h6, ih, hasChar, List.any_cons]

/-- From the double-quote-decided state (a single quote was seen, no
double quote yet), only a newline or a double quote can change the
verdict, to a text field. -/
theorem formatStrScan_double (cs : List Char) :
    formatStrScan cs false true .double =
      .ok (if cs.any isNL || hasChar cs '"' then .text else .double) := by
  induction cs with
  | nil => simp [formatStrScan, hasChar]
  | cons r rest ih =>
    by_cases h1 : isNL r = true
    · simp [formatStrScan, h1, List.any_cons]
    · by_cases h2 : r = '"'
      · subst h2
        simp [formatStrScan, h1, hasChar, List.any_cons]
      · by_cases h4 : r = '\''
        · subst h4
          simp [formatStrScan, h1, ih, hasChar, List.any_cons]
        · by_cases h6 : isOrdinaryChar r = true
          · simp [formatStrScan, h1, h2, h4, h6, ordinary_print h6, ih,
              hasChar, List.any_cons]
          · simp [formatStrScan, h1, h2, h4, h6, ih, hasChar, List.any_cons]

/-- From the no-quotes-seen states, the verdict is: text on a newline or
both quote kinds; single quotes once a double quote appears; otherwise
whatever the accumulated default is (`.double` here, reached after a
non-ordinary character). -/
theorem formatStrScan_noquotes_double (cs : List Char) :
    formatStrScan cs false false .double =
      .ok (if cs.any isNL || (hasChar cs '"' && hasChar cs '\'') then .text
        else if hasChar cs '"' then .single
        else .double) := by
  induction cs with
  | nil => simp [formatStrScan, hasChar]
  | cons r rest ih =>
    by_cases h1 : isNL r = true
    · simp [formatStrScan, h1, List.any_cons]
    · by_cases h2 : r = '"'
      · subst h2
        simp [formatStrScan, h1, formatStrScan_single, hasChar, List.any_cons]
      · by_cases h4 : r = '\''
        · subst h4
          simp [formatStrScan, h1, formatStrScan_double, hasChar,
            List.any_cons]
          by_cases hd : hasChar rest '"' = true <;>
            simp [hasChar, List.any_cons] at hd <;>
            simp [hd]
        · by_cases h6 : isOrdinaryChar r = true
          · simp [formatStrScan, h1, h2, h4, h6, ordinary_print h6, ih,
              hasChar, List.any_cons]
          · simp [formatStrScan, h1, h2, h4, h6, ih, hasChar, List.any_cons]

/-- The scan from the initial state, characterized. -/
theorem formatStrScan_spec (cs : List Char) :
    formatStrScan cs false false .unquoted =
      .ok (if cs.any isNL || (hasChar cs '"' && hasChar cs '\'') then .text
        else if hasChar cs '"' then .single
        else if hasChar cs '\'' || cs.any (fun c => ! isOrdinaryChar c) then
          .double
        else .unquoted) := by
  induction cs with
  | nil => simp [formatStrScan, hasChar]
  | cons r rest ih =>
    by_cases h1 : isNL r = true
    · simp [formatStrScan, h1, List.any_cons]
    · by_cases h2 : r = '"'
      · subst h2
        simp [formatStrScan, h1, formatStrScan_single, hasChar, List.any_cons]
      · by_cases h4 : r = '\''
        · subst h4
          simp [formatStrScan, h1, formatStrScan_double, hasChar,
            List.any_cons]
          by_cases hd : hasChar rest '"' = true <;>
            simp [hasChar, List.any_cons] at hd <;>
            simp [hd]
        · by_cases h6 : isOrdinaryChar r = true
          · simp [formatStrScan, h1, h2, h4, h6, ordinary_print h6, ih,
              hasChar, List.any_cons]
          · simp [formatStrScan, h1, h2, h4, h6,
              formatStrScan_noquotes_double, hasChar, List.any_cons]

/-! ## Claim C4: the quoting heuristic -/

/-- C4 counterexample.  The writer double-quotes any string in which *some
substring* matches a numeric pattern — Go's `MatchString` is unanchored —
not only strings whose whole content matches the numeric grammar: `"a1"`
is not a full match of either pattern and consists solely of ordinary
characters with no quotes, so the claim requires it to be emitted
unquoted, yet `formatStr` double-quotes it. -/
theorem c4_quoting_counterexample :
    formatStr "a1" = .ok "\"a1\"" ∧
    num1Full "a1".toList = false ∧
    num2Full "a1".toList = false ∧
    (∀ c ∈ "a1".toList, isOrdinaryChar c = true) ∧
    ("\"a1\"" : String) ≠ "a1" :=
  ⟨rfl, rfl, rfl, by decide, by decide⟩

/-- C4 amended.  For every string scalar: it is double-quoted up front
exactly when some substring matches a numeric pattern — equivalently
(`containsMatch_iff_digit`), exactly when the content contains a decimal
digit; otherwise a newline or the presence of both quote kinds yields a
semicolon text field; a double quote (and no single quote) yields single
quotes; a single quote or any non-ordinary character (and no double
quote) yields double quotes; and all-ordinary content is emitted
unquoted.  (`quotingSpec` spells out this classification.) -/
theorem c4_quoting_amended (s : String) :
    formatStr s = .ok (quotingSpec s) := by
  unfold formatStr quotingSpec
  by_cases h : s.toList.any isDigit = true
  · rw [if_pos ((containsMatch_iff_digit s.toList).2 h), if_pos h]
  · rw [if_neg (fun hc => h ((containsMatch_iff_digit s.toList).1 hc)),
      if_neg h, formatStrScan_spec]
    split_ifs <;> rfl

/-! ## Claim C2: per-column type inference -/

/-- The composite of the per-token `loopTypStep` updates applied to one
column by the value loop of `parseLoop`, starting from `itemDataNone`:
the resolved type of a column whose raw cell token kinds are `ks`. -/
def inferTyp (ks : List itemType) : itemType :=
  ks.foldl loopTypStep .itemDataNone

/-- A resolved String column type absorbs every further value token. -/
theorem loopTypStep_string {x : itemType} (hx : isValueType x = true) :
    loopTypStep .itemDataString x = .itemDataString := by
  cases x <;> revert hx <;> decide

/-- Null tokens and matching null seeds leave a null seed unchanged. -/
theorem loopTypStep_null_null {t x : itemType} (ht : isNull t = true)
    (hx : isNull x = true) : loopTypStep t x = t := by
  cases t <;> cases x <;> revert ht hx <;> decide

/-- A non-null token after a null seed resolves the column to String. -/
theorem loopTypStep_null_nonnull {t x : itemType} (ht : isNull t = true)
    (hx : isValueType x = true) (hn : isNull x = false) :
    loopTypStep t x = .itemDataString := by
  cases t <;> cases x <;> revert ht hx hn <;> decide

/-- The String column type is a fixed point of the whole fold. -/
theorem foldT_string {ks : List itemType}
    (h : ∀ x ∈ ks, isValueType x = true) :
    ks.foldl loopTypStep .itemDataString = .itemDataString := by
  induction ks with
  | nil => rfl
  | cons x ks ih =>
    rw [List.foldl_cons, loopTypStep_string (h x (List.mem_cons_self x ks))]
    exact ih (fun y hy => h y (List.mem_cons_of_mem x hy))

/-- The fold from a numeric seed: a String token forces String; otherwise
the presence of a Float (in the seed or the tokens) decides Float over
Integer; null tokens never matter. -/
theorem foldT_numeric {ks : List itemType}
    (h : ∀ x ∈ ks, isValueType x = true) :
    ∀ t, (t = .itemDataInteger ∨ t = .itemDataFloat) →
    ks.foldl loopTypStep t =
      (if ∃ x ∈ ks, x = .itemDataString then .itemDataString
       else if t = .itemDataFloat ∨ ∃ x ∈ ks, x = .itemDataFloat then
         .itemDataFloat
       else .itemDataInteger) := by
  induction ks with
  | nil =>
    intro t ht
    rcases ht with rfl | rfl <;> simp
  | cons x ks ih =>
    intro t ht
    have hx := h x (List.mem_cons_self x ks)
    have h' : ∀ y ∈ ks, isValueType y = true :=
      fun y hy => h y (List.mem_cons_of_mem x hy)
    rw [List.foldl_cons]
    cases x with
    | itemDataOmitted =>
      have hstep : loopTypStep t .itemDataOmitted = t := by
        rcases ht with rfl | rfl <;> decide
      rw [hstep, ih h' t ht]
      simp
    | itemDataMissing =>
      have hstep : loopTypStep t .itemDataMissing = t := by
        rcases ht with rfl | rfl <;> decide
      rw [hstep, ih h' t ht]
      simp
    | itemDataInteger =>
      have hstep : loopTypStep t .itemDataInteger = t := by
        rcases ht with rfl | rfl <;> decide
      rw [hstep, ih h' t ht]
      simp
    | itemDataFloat =>
      have hstep : loopTypStep t .itemDataFloat = .itemDataFloat := by
        rcases ht with rfl | rfl <;> decide
      rw [hstep, ih h' .itemDataFloat (Or.inr rfl)]
      simp
    | itemDataString =>
      have hstep : loopTypStep t .itemDataString = .itemDataString := by
        rcases ht with rfl | rfl <;> decide
      rw [hstep, foldT_string h']
      simp
    | itemError => exact absurd hx (by decide)
    | itemEOF => exact absurd hx (by decide)
    | itemVersion => exact absurd hx (by decide)
    | itemComment => exact absurd hx (by decide)
    | itemGlobal => exact absurd hx (by decide)
    | itemStop => exact absurd hx (by decide)
    | itemDataBlockStart => exact absurd hx (by decide)
    | itemSaveFrameStart => exact absurd hx (by decide)
    | itemSaveFrameEnd => exact absurd hx (by decide)
    | itemLoop => exact absurd hx (by decide)
    | itemDataTag => exact absurd hx (by decide)
    | itemDataNone => exact absurd hx (by decide)

/-- The fold from a null seed: any non-null token forces String,
otherwise the seed survives. -/
theorem foldT_null {ks : List itemType}
    (h : ∀ x ∈ ks, isValueType x = true) :
    ∀ t, isNull t = true →
    ks.foldl loopTypStep t =
      (if ∃ x ∈ ks, isNull x = false then .itemDataString else t) := by
  induction ks with
  | nil =>
    intro t _
    simp
  | cons x ks ih =>
    intro t ht
    have hx := h x (List.mem_cons_self x ks)
    have h' : ∀ y ∈ ks, isValueType y = true :=
      fun y hy => h y (List.mem_cons_of_mem x hy)
    rw [List.foldl_cons]
    by_cases hn : isNull x = true
    · rw [loopTypStep_null_null ht hn, ih h' t ht]
      simp [hn]
    · have hn' : isNull x = false := by
        revert hn; cases isNull x <;> simp
      rw [loopTypStep_null_nonnull ht hx hn', foldT_string h']
      simp [hn']

/-- Over value-token kinds, "no String and no Float occurs" is "every
token is null or Integer". -/
theorem noStringFloat_iff {ks : List itemType}
    (h : ∀ x ∈ ks, isValueType x = true) :
    ((¬ ∃ x ∈ ks, x = .itemDataString) ∧ (¬ ∃ x ∈ ks, x = .itemDataFloat)) ↔
      ∀ x ∈ ks, isNull x = true ∨ x = .itemDataInteger := by
  push_neg
  constructor
  · intro hsf x hx
    have hv := h x hx
    have hs := hsf.1 x hx
    have hf := hsf.2 x hx
    cases x <;> revert hv hs hf <;> decide
  · intro hall
    constructor <;> intro x hx <;> have := hall x hx <;>
      cases x <;> revert this <;> decide

/-- Over value-token kinds, "no String occurs" is "every token is null,
Integer or Float". -/
theorem noString_iff {ks : List itemType}
    (h : ∀ x ∈ ks, isValueType x = true) :
    (¬ ∃ x ∈ ks, x = .itemDataString) ↔
      ∀ x ∈ ks, isNull x = true ∨ x = .itemDataInteger ∨ x = .itemDataFloat := by
  push_neg
  constructor
  · intro hs x hx
    have hv := h x hx
    have := hs x hx
    cases x <;> revert hv this <;> decide
  · intro hall x hx
    have := hall x hx
    cases x <;> revert this <;> decide

/-- C2 counterexample.  A column whose raw tokens are `[".", 1, 2]` does
*not* resolve to an Integer column with the first cell `0`: the leading
omitted token seeds the column type, and the first integer then drives it
to String, so the column resolves to the string column
`[".", "1", "2"]`. -/
theorem c2_inference_counterexample :
    Read "data_a\nloop_\n_x\n. 1 2\n" =
      .ok ⟨"", [("a", ⟨⟨"a", [],
        [("x", ⟨[("x", 0)], [.cifStrings [".", "1", "2"]]⟩)]⟩, []⟩)]⟩ ∧
    ([ValueLoop.cifStrings [".", "1", "2"]] : List ValueLoop) ≠
      [.cifInts [0, 1, 2]] :=
  ⟨rfl, by decide⟩

/-- C2 amended.  The inference is order-sensitive in the null tokens: the
first token seeds the column type.  A column resolves to Integer iff its
first token is Integer and every later token is Integer or null; to Float
iff its first token is Integer or Float, every later token is
Integer/Float/null, and a Float occurs (first token or later); and a
column whose *first* token is null resolves to String as soon as any
non-null token follows — null tokens after the first are ignored.  Cells
of an Integer-resolved column still materialize omitted/missing as `0`
(last conjunct, end to end). -/
theorem c2_inference_amended (k : itemType) (ks : List itemType)
    (hk : isValueType k = true) (hks : ∀ x ∈ ks, isValueType x = true) :
    (inferTyp (k :: ks) = .itemDataInteger ↔
      k = .itemDataInteger ∧
        ∀ x ∈ ks, isNull x = true ∨ x = .itemDataInteger) ∧
    (inferTyp (k :: ks) = .itemDataFloat ↔
      (k = .itemDataInteger ∨ k = .itemDataFloat) ∧
      (∀ x ∈ ks, isNull x = true ∨ x = .itemDataInteger ∨
        x = .itemDataFloat) ∧
      (k = .itemDataFloat ∨ ∃ x ∈ ks, x = .itemDataFloat)) ∧
    (isNull k = true → (∃ x ∈ ks, isNull x = false) →
      inferTyp (k :: ks) = .itemDataString) ∧
    Read "data_a\nloop_\n_x\n1 . 2\n" =
      .ok ⟨"", [("a", ⟨⟨"a", [],
        [("x", ⟨[("x", 0)], [.cifInts [1, 0, 2]]⟩)]⟩, []⟩)]⟩ := by
  have h0 : inferTyp (k :: ks) = ks.foldl loopTypStep k := by
    rw [inferTyp, List.foldl_cons]
    rfl
  have hScontra : (∃ x ∈ ks, x = itemType.itemDataString) →
      ¬ ∀ x ∈ ks, isNull x = true ∨ x = itemType.itemDataInteger := by
    rintro ⟨x, hx, rfl⟩ hall
    have := hall _ hx
    revert this; decide
  have hScontra' : (∃ x ∈ ks, x = itemType.itemDataString) →
      ¬ ∀ x ∈ ks, isNull x = true ∨ x = itemType.itemDataInteger ∨
        x = itemType.itemDataFloat := by
    rintro ⟨x, hx, rfl⟩ hall
    have := hall _ hx
    revert this; decide
  have hFcontra : (∃ x ∈ ks, x = itemType.itemDataFloat) →
      ¬ ∀ x ∈ ks, isNull x = true ∨ x = itemType.itemDataInteger := by
    rintro ⟨x, hx, rfl⟩ hall
    have := hall _ hx
    revert this; decide
  refine ⟨?_, ?_, ?_, rfl⟩
  · rw [h0]
    cases k with
    | itemDataInteger =>
      rw [foldT_numeric hks _ (Or.inl rfl)]
      by_cases hS : ∃ x ∈ ks, x = itemType.itemDataString
      · rw [if_pos hS]
        exact iff_of_false (by decide) (fun hc => hScontra hS hc.2)
      · rw [if_neg hS]
        by_cases hF : ∃ x ∈ ks, x = itemType.itemDataFloat
        · rw [if_pos (Or.inr hF)]
          exact iff_of_false (by decide) (fun hc => hFcontra hF hc.2)
        · rw [if_neg (fun hc =>
            hc.elim (fun h => absurd h (by decide)) hF)]
          exact iff_of_true rfl
            ⟨rfl, ((noStringFloat_iff hks).1 ⟨hS, hF⟩)⟩
    | itemDataFloat =>
      rw [foldT_numeric hks _ (Or.inr rfl)]
      by_cases hS : ∃ x ∈ ks, x = itemType.itemDataString
      · rw [if_pos hS]
        exact iff_of_false (by decide) (fun hc => absurd hc.1 (by decide))
      · rw [if_neg hS, if_pos (Or.inl rfl)]
        exact iff_of_false (by decide) (fun hc => absurd hc.1 (by decide))
    | itemDataOmitted =>
      rw [foldT_null hks _ (by decide)]
      by_cases hn : ∃ x ∈ ks, isNull x = false
      · rw [if_pos hn]
        exact iff_of_false (by decide) (fun hc => absurd hc.1 (by decide))
      · rw [if_neg hn]
        exact iff_of_false (by decide) (fun hc => absurd hc.1 (by decide))
    | itemDataMissing =>
      rw [foldT_null hks _ (by decide)]
      by_cases hn : ∃ x ∈ ks, isNull x = false
      · rw [if_pos hn]
        exact iff_of_false (by decide) (fun hc => absurd hc.1 (by decide))
      · rw [if_neg hn]
        exact iff_of_false (by decide) (fun hc => absurd hc.1 (by decide))
    | itemDataString =>
      rw [foldT_string hks]
      exact iff_of_false (by decide) (fun hc => absurd hc.1 (by decide))
    | itemError => exact absurd hk (by decide)
    | itemEOF => exact absurd hk (by decide)
    | itemVersion => exact absurd hk (by decide)
    | itemComment => exact absurd hk (by decide)
    | itemGlobal => exact absurd hk (by decide)
    | itemStop => exact absurd hk (by decide)
    | itemDataBlockStart => exact absurd hk (by decide)
    | itemSaveFrameStart => exact absurd hk (by decide)
    | itemSaveFrameEnd => exact absurd hk (by decide)
    | itemLoop => exact absurd hk (by decide)
    | itemDataTag => exact absurd hk (by decide)
    | itemDataNone => exact absurd hk (by decide)
  · rw [h0]
    cases k with
    | itemDataInteger =>
      rw [foldT_numeric hks _ (Or.inl rfl)]
      by_cases hS : ∃ x ∈ ks, x = itemType.itemDataString
      · rw [if_pos hS]
        exact iff_of_false (by decide) (fun hc => hScontra' hS hc.2.1)
      · rw [if_neg hS]
        by_cases hF : ∃ x ∈ ks, x = itemType.itemDataFloat
        · rw [if_pos (Or.inr hF)]
          exact iff_of_true rfl
            ⟨Or.inl rfl, (noString_iff hks).1 hS, Or.inr hF⟩
        · rw [if_neg (fun hc =>
            hc.elim (fun h => absurd h (by decide)) hF)]
          refine iff_of_false (by decide) ?_
          rintro ⟨-, -, (hc : itemType.itemDataInteger =
            itemType.itemDataFloat) | hc⟩
          · exact absurd hc (by decide)
          · exact hF hc
    | itemDataFloat =>
      rw [foldT_numeric hks _ (Or.inr rfl)]
      by_cases hS : ∃ x ∈ ks, x = itemType.itemDataString
      · rw [if_pos hS]
        exact iff_of_false (by decide) (fun hc => hScontra' hS hc.2.1)
      · rw [if_neg hS, if_pos (Or.inl rfl)]
        exact iff_of_true rfl
          ⟨Or.inr rfl, (noString_iff hks).1 hS, Or.inl rfl⟩
    | itemDataOmitted =>
      rw [foldT_null hks _ (by decide)]
      by_cases hn : ∃ x ∈ ks, isNull x = false
      · rw [if_pos hn]
        refine iff_of_false (by decide) ?_
        rintro ⟨(hc : itemType.itemDataOmitted = itemType.itemDataInteger) |
          (hc : itemType.itemDataOmitted = itemType.itemDataFloat), -, -⟩ <;>
          exact absurd hc (by decide)
      · rw [if_neg hn]
        refine iff_of_false (by decide) ?_
        rintro ⟨(hc : itemType.itemDataOmitted = itemType.itemDataInteger) |
          (hc : itemType.itemDataOmitted = itemType.itemDataFloat), -, -⟩ <;>
          exact absurd hc (by decide)
    | itemDataMissing =>
      rw [foldT_null hks _ (by decide)]
      by_cases hn : ∃ x ∈ ks, isNull x = false
      · rw [if_pos hn]
        refine iff_of_false (by decide) ?_
        rintro ⟨(hc : itemType.itemDataMissing = itemType.itemDataInteger) |
          (hc : itemType.itemDataMissing = itemType.itemDataFloat), -, -⟩ <;>
          exact absurd hc (by decide)
      · rw [if_neg hn]
        refine iff_of_false (by decide) ?_
        rintro ⟨(hc : itemType.itemDataMissing = itemType.itemDataInteger) |
          (hc : itemType.itemDataMissing = itemType.itemDataFloat), -, -⟩ <;>
          exact absurd hc (by decide)
    | itemDataString =>
      rw [foldT_string hks]
      refine iff_of_false (by decide) ?_
      rintro ⟨(hc : itemType.itemDataString = itemType.itemDataInteger) |
        (hc : itemType.itemDataString = itemType.itemDataFloat), -, -⟩ <;>
        exact absurd hc (by decide)
    | itemError => exact absurd hk (by decide)
    | itemEOF => exact absurd hk (by decide)
    | itemVersion => exact absurd hk (by decide)
    | itemComment => exact absurd hk (by decide)
    | itemGlobal => exact absurd hk (by decide)
    | itemStop => exact absurd hk (by decide)
    | itemDataBlockStart => exact absurd hk (by decide)
    | itemSaveFrameStart => exact absurd hk (by decide)
    | itemSaveFrameEnd => exact absurd hk (by decide)
    | itemLoop => exact absurd hk (by decide)
    | itemDataTag => exact absurd hk (by decide)
    | itemDataNone => exact absurd hk (by decide)
  · intro hnull hex
    rw [h0, foldT_null hks k hnull, if_pos hex]

/-- Witness for `c2_inference_amended` at the token kinds
`[Integer, Float, Omitted]`: the hypotheses hold, and the Float clause
resolves the column to Float. -/
theorem c2_inference_amended_witness :
    (isValueType itemType.itemDataInteger = true) ∧
    (∀ x ∈ [itemType.itemDataFloat, itemType.itemDataOmitted],
      isValueType x = true) ∧
    (inferTyp [itemType.itemDataInteger, itemType.itemDataFloat,
        itemType.itemDataOmitted] = itemType.itemDataFloat ↔
      (itemType.itemDataInteger = itemType.itemDataInteger ∨
        itemType.itemDataInteger = itemType.itemDataFloat) ∧
      (∀ x ∈ [itemType.itemDataFloat, itemType.itemDataOmitted],
        isNull x = true ∨ x = itemType.itemDataInteger ∨
          x = itemType.itemDataFloat) ∧
      (itemType.itemDataInteger = itemType.itemDataFloat ∨
        ∃ x ∈ [itemType.itemDataFloat, itemType.itemDataOmitted],
          x = itemType.itemDataFloat)) :=
  ⟨by decide, by decide,
    (c2_inference_amended _ _ (by decide) (by decide)).2.1⟩

/-! ## Claim C7: duplicate-name rejection -/

/-- C7.  A second data block with the same lower-cased name, a second
save frame with the same lower-cased name inside one data block, and a
tag already present in a block's combined item-and-table namespace each
abort the parse with a fatal error naming the offending identifier — the
first three conjuncts at the function level (the parser always calls
them with lower-cased names), the last three end to end, exercising the
case-insensitive folding. -/
theorem c7_duplicate_names (blocks : List (String × DataBlock))
    (dblock : DataBlock) (b : Block) (name : String) (ts : List item)
    (line : Nat) :
    ((alookup blocks name).isSome = true →
      parseDataBlock blocks name ts line = .error (perrf line
        ("Data block with name '" ++ name ++ "' already exists."))) ∧
    ((alookup dblock.Frames name).isSome = true →
      parseSaveFrame dblock name ts line = .error (perrf line
        ("Save frame with name '" ++ name ++ "' already exists in data " ++
         "block '" ++ dblock.Block.Name ++ "'."))) ∧
    (((alookup b.Items name).isSome = true ∨
        (alookup b.Loops name).isSome = true) →
      assertUniqueTag b name line = .error (perrf line
        ("Data item with name '" ++ name ++ "' already exists in block '" ++
         b.Name ++ "'."))) ∧
    Read "data_Foo\ndata_foo\n" = .error
      "CIF parse error (line 2): Data block with name 'foo' already exists." ∧
    Read "data_a\nsave_f\n_x 1\nsave_\nsave_F\n_y 2\nsave_\n" = .error
      ("CIF parse error (line 5): Save frame with name 'f' already exists " ++
       "in data block 'a'.") ∧
    Read "data_a\n_Tag.X 1\n_tag.x 2\n" = .error
      ("CIF parse error (line 3): Data item with name 'tag.x' already " ++
       "exists in block 'a'.") := by
  refine ⟨?_, ?_, ?_, rfl, rfl, rfl⟩
  · intro h
    unfold parseDataBlock
    rw [if_pos h]
  · intro h
    unfold parseSaveFrame
    rw [if_pos h]
  · intro h
    unfold assertUniqueTag
    rw [if_pos h]

/-- Witness for `c7_duplicate_names` at concrete duplicate bindings. -/
theorem c7_duplicate_names_witness :
    ((alookup [("dup", (⟨⟨"dup", [], []⟩, []⟩ : DataBlock))] "dup").isSome =
        true ∧
      parseDataBlock [("dup", ⟨⟨"dup", [], []⟩, []⟩)] "dup" [] 7 =
        .error (perrf 7 "Data block with name 'dup' already exists.")) ∧
    ((alookup [("fr", (⟨⟨"fr", [], []⟩⟩ : SaveFrame))] "fr").isSome = true ∧
      parseSaveFrame ⟨⟨"blk", [], []⟩, [("fr", ⟨⟨"fr", [], []⟩⟩)]⟩ "fr" [] 9 =
        .error (perrf 9
          ("Save frame with name 'fr' already exists in data block " ++
           "'blk'."))) ∧
    ((alookup [("tg", Value.cifInt 1)] "tg").isSome = true ∧
      assertUniqueTag ⟨"blk", [("tg", .cifInt 1)], []⟩ "tg" 3 =
        .error (perrf 3
          "Data item with name 'tg' already exists in block 'blk'.")) := by
  have h := c7_duplicate_names [("dup", ⟨⟨"dup", [], []⟩, []⟩)]
    ⟨⟨"blk", [], []⟩, [("fr", ⟨⟨"fr", [], []⟩⟩)]⟩
    ⟨"blk", [("tg", .cifInt 1)], []⟩ "dup" [] 7
  have h2 := c7_duplicate_names [("dup", ⟨⟨"dup", [], []⟩, []⟩)]
    ⟨⟨"blk", [], []⟩, [("fr", ⟨⟨"fr", [], []⟩⟩)]⟩
    ⟨"blk", [("tg", .cifInt 1)], []⟩ "fr" [] 9
  have h3 := c7_duplicate_names [("dup", ⟨⟨"dup", [], []⟩, []⟩)]
    ⟨⟨"blk", [], []⟩, [("fr", ⟨⟨"fr", [], []⟩⟩)]⟩
    ⟨"blk", [("tg", .cifInt 1)], []⟩ "tg" [] 3
  exact ⟨⟨by decide, h.1 (by decide)⟩,
    ⟨by decide, h2.2.1 (by decide)⟩,
    ⟨by decide, h3.2.2.1 (Or.inl (by decide))⟩⟩

/-! ## Claim C8: the table arity check -/

/-- Delivery of a non-comment, non-error head token. -/
theorem nextTok_plain {u : item} {rest : List item} {line : Nat}
    (hc : u.typ ≠ .itemComment) (he : u.typ ≠ .itemError) :
    nextTok (u :: rest) line = .ok (u, rest, u.line) := by
  unfold nextTok
  rw [if_neg hc, if_neg he]

/-- Value tokens are neither comments nor errors. -/
theorem isValueType_ne {τ : itemType} (h : isValueType τ = true) :
    τ ≠ .itemComment ∧ τ ≠ .itemError := by
  cases τ <;> revert h <;> decide

/-- Data-tag tokens are neither comments nor errors. -/
theorem dataTag_ne {τ : itemType} (h : τ = .itemDataTag) :
    τ ≠ .itemComment ∧ τ ≠ .itemError := by
  subst h; exact ⟨by decide, by decide⟩

/-- `updAt` preserves the length. -/
theorem updAt_length {α : Type} (l : List α) (i : Nat) (f : α → α) :
    (updAt l i f).length = l.length := by
  induction l generalizing i with
  | nil => rfl
  | cons x xs ih =>
    cases i with
    | zero => rfl
    | succ n => simp [updAt, ih]

/-- Running the tag loop over an explicit list of fresh data tags: every
tag is appended as an empty column and the first non-tag token is handed
back, with its own line. -/
theorem slurpTags_run (b : Block) (tags : List item) :
    ∀ (fuel : Nat) (vals : List loopValues) (x u : item)
      (rest : List item) (line : Nat),
    x.typ = .itemDataTag →
    (alookup b.Items (strToLower x.val)).isSome = false →
    (alookup b.Loops (strToLower x.val)).isSome = false →
    (∀ y ∈ tags, y.typ = .itemDataTag ∧
      (alookup b.Items (strToLower y.val)).isSome = false ∧
      (alookup b.Loops (strToLower y.val)).isSome = false) →
    u.typ ≠ .itemComment → u.typ ≠ .itemError → u.typ ≠ .itemDataTag →
    tags.length + 2 ≤ fuel →
    slurpTags fuel b vals x (tags ++ u :: rest) line =
      .ok (vals ++ (x :: tags).map
        (fun y => ⟨strToLower y.val, [], .itemDataNone⟩), u, rest, u.line) := by
  induction tags with
  | nil =>
    intro fuel vals x u rest line hx hxi hxl _ huc hue hut hfuel
    match fuel, hfuel with
    | f + 2, _ =>
      simp only [List.nil_append, slurpTags]
      rw [if_pos hx]
      unfold assertUniqueTag
      rw [if_neg (by simp [hxi, hxl])]
      rw [nextTok_plain huc hue]
      simp only [slurpTags]
      rw [if_neg hut]
      simp
  | cons y tags ih =>
    intro fuel vals x u rest line hx hxi hxl htags huc hue hut hfuel
    have hy := htags y (List.mem_cons_self y tags)
    have htags' : ∀ z ∈ tags, z.typ = .itemDataTag ∧
        (alookup b.Items (strToLower z.val)).isSome = false ∧
        (alookup b.Loops (strToLower z.val)).isSome = false :=
      fun z hz => htags z (List.mem_cons_of_mem y hz)
    match fuel, hfuel with
    | f + 1, hfuel =>
      simp only [List.cons_append, slurpTags]
      rw [if_pos hx]
      unfold assertUniqueTag
      rw [if_neg (by simp [hxi, hxl])]
      rw [nextTok_plain (dataTag_ne hy.1).1 (dataTag_ne hy.1).2]
      dsimp only
      have hres := ih f (vals ++ [⟨strToLower x.val, [], .itemDataNone⟩]) y u
        rest y.line hy.1 hy.2.1 hy.2.2 htags' huc hue hut (by
          simp at hfuel
          omega)
      rw [hres]
      simp only [List.map_cons, List.append_assoc, List.singleton_append,
        List.cons_append, List.nil_append]

/-- Running the value loop over an explicit list of value tokens: the
count rises by one per value and the column count is preserved; the first
non-value token is handed back with its own line. -/
theorem slurpValues_run (vs : List item) :
    ∀ (fuel : Nat) (vals : List loopValues) (idx count : Nat) (u t : item)
      (rest : List item) (line : Nat),
    isValueType u.typ = true →
    (∀ y ∈ vs, isValueType y.typ = true) →
    isValueType t.typ = false → t.typ ≠ .itemComment → t.typ ≠ .itemError →
    vs.length + 2 ≤ fuel →
    ∃ vals', slurpValues fuel vals idx count u (vs ++ t :: rest) line =
      .ok (vals', t, rest, t.line, count + vs.length + 1) ∧
      vals'.length = vals.length := by
  induction vs with
  | nil =>
    intro fuel vals idx count u t rest line hu _ ht htc hte hfuel
    match fuel, hfuel with
    | f + 2, _ =>
      refine ⟨updAt vals (idx % vals.length)
        (fun v => ⟨v.name, v.strs ++ [u.val], loopTypStep v.typ u.typ⟩),
        ?_, updAt_length vals _ _⟩
      simp only [List.nil_append, slurpValues]
      rw [if_pos hu, nextTok_plain htc hte]
      simp only [slurpValues]
      rw [if_neg (by simp [ht])]
      simp
  | cons y vs ih =>
    intro fuel vals idx count u t rest line hu hvs ht htc hte hfuel
    have hy := hvs y (List.mem_cons_self y vs)
    have hvs' : ∀ z ∈ vs, isValueType z.typ = true :=
      fun z hz => hvs z (List.mem_cons_of_mem y hz)
    match fuel, hfuel with
    | f + 1, hfuel =>
      obtain ⟨vals', hrun, hlen⟩ := ih f
        (updAt vals (idx % vals.length)
          (fun v => ⟨v.name, v.strs ++ [u.val], loopTypStep v.typ u.typ⟩))
        (idx + 1) (count + 1) y t rest y.line hy hvs' ht htc hte (by
          simp at hfuel
          omega)
      refine ⟨vals', ?_, by rw [hlen, updAt_length]⟩
      have harith : count + 1 + vs.length + 1 = count + (y :: vs).length + 1 := by
        simp
        omega
      simp only [List.cons_append, slurpValues]
      rw [if_pos hu,
        nextTok_plain (isValueType_ne hy).1 (isValueType_ne hy).2]
      dsimp only
      rw [hrun, harith]

/-- C8.  A table whose value count is not a multiple of its declared tag
count makes `Read` fail with a fatal error whose message cites the
table's starting line (`line`, the line of the `loop_` keyword): stated
over an arbitrary table token stream — the tags `x :: tags` (fresh in the
block), the values `u :: vs`, a terminator `t` and anything beyond. -/
theorem c8_table_arity (b : Block) (x : item) (tags : List item)
    (u : item) (vs : List item) (t : item) (rest : List item) (line : Nat)
    (hx : x.typ = .itemDataTag)
    (hxi : (alookup b.Items (strToLower x.val)).isSome = false)
    (hxl : (alookup b.Loops (strToLower x.val)).isSome = false)
    (htags : ∀ y ∈ tags, y.typ = .itemDataTag ∧
      (alookup b.Items (strToLower y.val)).isSome = false ∧
      (alookup b.Loops (strToLower y.val)).isSome = false)
    (hu : isValueType u.typ = true)
    (hvs : ∀ y ∈ vs, isValueType y.typ = true)
    (ht : isValueType t.typ = false) (htc : t.typ ≠ .itemComment)
    (hte : t.typ ≠ .itemError) (htt : t.typ ≠ .itemDataTag)
    (hcount : (vs.length + 1) % (tags.length + 1) ≠ 0) :
    parseLoop b ((x :: tags) ++ (u :: vs) ++ t :: rest) line =
      .error (perrf t.line
        ("There are " ++ toString (vs.length + 1) ++
         " values in loop (starting on line " ++ toString line ++
         "), which is not a multiple of the number of columns in " ++
         "the loop (" ++ toString (tags.length + 1) ++ ").")) := by
  have hunv : u.typ ≠ .itemComment := (isValueType_ne hu).1
  have hune : u.typ ≠ .itemError := (isValueType_ne hu).2
  have hunt : u.typ ≠ .itemDataTag := by
    intro he
    rw [he] at hu
    exact absurd hu (by decide)
  unfold parseLoop
  rw [show ((x :: tags) ++ (u :: vs) ++ t :: rest) =
    (x :: (tags ++ (u :: (vs ++ t :: rest)))) by simp]
  rw [nextTok_plain (dataTag_ne hx).1 (dataTag_ne hx).2]
  dsimp only
  rw [if_neg (not_not_intro hx)]
  rw [slurpTags_run b tags _ [] x u (vs ++ t :: rest) x.line hx hxi hxl
    htags hunv hune hunt (by simp)]
  dsimp only
  rw [if_neg (not_not_intro hu)]
  obtain ⟨vals', hrun, hlen⟩ := slurpValues_run vs
    ((vs ++ t :: rest).length + 2)
    ((x :: tags).map (fun y => ⟨strToLower y.val, [], .itemDataNone⟩))
    0 0 u t rest u.line hu hvs ht htc hte (by simp)
  simp only [List.nil_append]
  rw [hrun]
  dsimp only
  have hlen' : vals'.length = tags.length + 1 := by
    rw [hlen]; simp
  rw [hlen']
  rw [if_pos (by simpa using hcount)]
  simp only [Nat.zero_add]

/-- Witness for `c8_table_arity`: two tags, three values — a count that
is not a multiple of two — produce the arity error citing line 2. -/
theorem c8_table_arity_witness :
    parseLoop ⟨"a", [], []⟩
      [⟨.itemDataTag, "x", 3⟩, ⟨.itemDataTag, "y", 4⟩,
       ⟨.itemDataInteger, "1", 5⟩, ⟨.itemDataInteger, "2", 5⟩,
       ⟨.itemDataInteger, "3", 5⟩, eofItem] 2 =
      .error (perrf 0
        ("There are 3 values in loop (starting on line 2), which is " ++
         "not a multiple of the number of columns in the loop (2).")) := by
  have h := c8_table_arity ⟨"a", [], []⟩ ⟨.itemDataTag, "x", 3⟩
    [⟨.itemDataTag, "y", 4⟩] ⟨.itemDataInteger, "1", 5⟩
    [⟨.itemDataInteger, "2", 5⟩, ⟨.itemDataInteger, "3", 5⟩] eofItem [] 2
    rfl (by decide) (by decide) (by decide) (by decide) (by decide)
    (by decide) (by decide) (by decide) (by decide) (by decide)
  simpa using h

/-! ## Claim C1: the round-trip contract -/

/-- An input whose document `Read` accepts: the item `_t` carries the
empty string, obtained from an empty semicolon text field. -/
def rtInput : String := "data_a\n_t\n;\n;\n"

/-- The document `Read` produces for `rtInput`. -/
def rtDoc : CIF := ⟨"", [("a", ⟨⟨"a", [("t", .cifString "")], []⟩, []⟩)]⟩

/-- C1.  The round-trip contract fails on the code: `rtInput` parses
successfully to a document whose item `t` is the empty string; `Write`
emits that item unquoted, producing the line `_t    ` with no value token
at all (and reports no error); re-reading the written text therefore
aborts with a parse error instead of yielding an equal document.  The
claim (and the spec's round-trip contract) say `read(write(read(x)))`
must equal `read(x)` up to the omitted/missing coercion. -/
theorem c1_roundtrip_fails_on_empty_string_item :
    Read rtInput = .ok rtDoc ∧
    Write rtDoc = ("data_a\n_t    \n", none) ∧
    Read "data_a\n_t    \n" = .error ("CIF parse error (line 0): Expected " ++
      "value for data tag 't' in block 'a', but got a 'EOF' instead.") :=
  ⟨rfl, rfl, rfl⟩

/-! ## Claim C3: write-failure surfacing -/

/-- An input `Read` accepts whose item value contains the non-printable
character `U+0001` (legal inside a quoted string for this scanner). -/
def wInput : String := "data_b\n_t 'X\x01'\n"

/-- The document `Read` produces for `wInput`. -/
def wDoc : CIF := ⟨"", [("b", ⟨⟨"b", [("t", .cifString "X\x01")], []⟩, []⟩)]⟩

/-- C3.  Write failures are not surfaced.  `'\x01'` is outside the
printable set, so the claim requires `Write` to return a descriptive
error; instead `Write` succeeds, emitting the character double-quoted:
`formatStr`'s non-printable check is dead code (every non-printable
character is also non-ordinary and the earlier non-ordinary case claims
it first), and in fact `formatStr` can never return an error at all
(fourth conjunct).  Independently, `write()`'s recover matches the
parser's `cifError` rather than `writeError`, so even a raised write
error would be swallowed and `Write` would return a nil error (see
`Write`). -/
theorem c3_write_failure_not_surfaced :
    Read wInput = .ok wDoc ∧
    Write wDoc = ("data_b\n_t    \"X\x01\"\n", none) ∧
    isPrintChar '\x01' = false ∧
    ∀ s : String, ∃ t, formatStr s = .ok t :=
  ⟨rfl, rfl, rfl, formatStr_total⟩

/-! ## Claim C5: the reserved-word policy -/

/-- C5.  Reserved words are not the hard errors the claim describes.
`global_` alone at the top level silently yields a successful empty
parse (the scanner's fall-through in `lexCif` returns no error state);
`global_` in a data-block body trips `lexDataBlocks`' reserved-word
check, but `nextItem` discards the pending error token because it tests
`state == nil` before the emitted slot, so `Read` succeeds with the input
truncated; `stop_` as a table value is likewise silently dropped and the
table parses; and `aheadMatch` — despite its doc comment — compares
case-sensitively, so `GLOBAL_` never even reaches the reserved-word
check (it is swallowed by the data-item error path, also discarded). -/
theorem c5_reserved_words_not_hard_errors :
    Read "global_" = .ok ⟨"", []⟩ ∧
    Read "data_a\nglobal_" = .ok ⟨"", [("a", ⟨⟨"a", [], []⟩, []⟩)]⟩ ∧
    Read "data_a\nGLOBAL_" = .ok ⟨"", [("a", ⟨⟨"a", [], []⟩, []⟩)]⟩ ∧
    Read "data_a\nloop_\n_x\n1 stop_\n" =
      .ok ⟨"", [("a", ⟨⟨"a", [],
        [("x", ⟨[("x", 0)], [.cifInts [1]]⟩)]⟩, []⟩)]⟩ ∧
    (lexInit "GLOBAL_".toList).aheadMatch "global_" = false :=
  ⟨rfl, rfl, rfl, rfl, rfl⟩

/-! ## Claim C9: version handling -/

/-- C9 counterexample.  The scanner does not accept an arbitrary version
string after the `#\#` prefix: `lexVersion` matches the fixed letters
`\#CIF_1.1` only (see `versionLetters`), so `#\#CIF_1.2` is consumed as
an ordinary comment and the document's `Version` stays empty, where the
claim says it would be stored as `CIF_1.2`. -/
theorem c9_version_not_arbitrary :
    Read "#\\#CIF_1.2\ndata_a\n" = .ok ⟨"", [("a", ⟨⟨"a", [], []⟩, []⟩)]⟩ ∧
    (CIF.mk "" [("a", ⟨⟨"a", [], []⟩, []⟩)]).Version ≠ "CIF_1.2" :=
  ⟨rfl, by decide⟩

/-- Advancing the scanner by one character whose value at the cursor is
known and is not a newline. -/
theorem nextc_at (preC rest : List Char) (c : Char) (st w ln : Nat)
    (em : Option item) (stk : List stateId) (hc : ¬ c = '\n') :
    (Lexer.mk (preC ++ c :: rest) st preC.length w ln em stk).nextc =
      (c, ⟨preC ++ c :: rest, st, preC.length + 1, 1, ln, em, stk⟩) := by
  have hlt : preC.length < (preC ++ c :: rest).length := by
    rw [List.length_append]
    simp
  have hget : (preC ++ c :: rest).getD preC.length eofChar = c := by
    rw [List.getD_append_right _ _ _ _ (Nat.le_refl _), Nat.sub_self]
    exact List.getD_cons_zero
  unfold Lexer.nextc
  rw [if_pos hlt]
  simp only [hget]
  rw [if_neg hc]

/-- Running the fixed-letter loop of `lexVersion` over letters present
verbatim at the cursor: every letter is consumed and the version token is
emitted, no matter what input follows them. -/
theorem lexVersionGo_run : ∀ (cs preC suf : List Char) (st w ln : Nat)
    (em : Option item) (stk : List stateId), '\n' ∉ cs →
    lexVersionGo ⟨preC ++ cs ++ suf, st, preC.length, w, ln, em, stk⟩ cs =
      ((Lexer.mk (preC ++ cs ++ suf) st (preC.length + cs.length)
          (if cs.length = 0 then w else 1) ln em stk).emit .itemVersion,
        some .lexCif) := by
  intro cs
  induction cs with
  | nil =>
    intro preC suf st w ln em stk hnl
    simp [lexVersionGo]
  | cons c cs ih =>
    intro preC suf st w ln em stk hnl
    rw [List.mem_cons] at hnl
    push_neg at hnl
    have hin : preC ++ (c :: cs) ++ suf = preC ++ c :: (cs ++ suf) := by
      simp
    rw [hin]
    have hstep := nextc_at preC (cs ++ suf) c st w ln em stk
      (fun hx => hnl.1 hx.symm)
    simp only [lexVersionGo]
    rw [hstep]
    dsimp only
    rw [if_pos rfl]
    have hih := ih (preC ++ [c]) suf st 1 ln em stk hnl.2
    rw [show (preC ++ [c] ++ cs ++ suf : List Char) =
          preC ++ c :: (cs ++ suf) by simp,
        show ((preC ++ [c] : List Char)).length = preC.length + 1 by simp,
        ite_self] at hih
    rw [hih]
    simp only [List.length_cons]
    rw [show preC.length + 1 + cs.length = preC.length + (cs.length + 1) by
      omega]
    rw [if_neg (Nat.succ_ne_zero cs.length)]

/-- Driving the scanner from the start of any input that begins with the
10-character version prefix: the first delivered token is the version
token carrying exactly that prefix, whatever the rest of the input is. -/
theorem nextItem_version : ∀ (F : Nat), 3 ≤ F → ∀ (suf : List Char),
    nextItem F ⟨'#' :: versionLetters ++ suf, 0, 0, 0, 1, none, []⟩
      (some .lexCifInitial) =
    (⟨.itemVersion, "#\\#CIF_1.1", 1⟩,
     ⟨'#' :: versionLetters ++ suf, 10, 10, 1, 1, none, []⟩,
     some .lexCif) := by
  intro F hF suf
  match F, hF with
  | F + 3, _ =>
    have h1 : lexStep .lexCifInitial
        ⟨'#' :: versionLetters ++ suf, 0, 0, 0, 1, none, []⟩ =
        (⟨'#' :: versionLetters ++ suf, 0, 1, 1, 1, none, []⟩,
         some .lexVersion) := by
      have hx := nextc_at [] (versionLetters ++ suf) '#' 0 0 1 none []
        (by decide)
      simp only [List.nil_append, List.length_nil, Nat.zero_add] at hx
      simp only [List.cons_append]
      simp only [lexStep]
      rw [hx]
      simp
    have hcur : Lexer.currentStr
        ⟨'#' :: versionLetters ++ suf, 0, 10, 1, 1, none, []⟩ =
        "#\\#CIF_1.1" := by
      unfold Lexer.currentStr
      rw [List.drop_zero, Nat.sub_zero]
      rw [show (10 : Nat) = ('#' :: versionLetters).length from rfl]
      rw [List.take_left]
      rfl
    have h2 : lexStep .lexVersion
        ⟨'#' :: versionLetters ++ suf, 0, 1, 1, 1, none, []⟩ =
        (⟨'#' :: versionLetters ++ suf, 10, 10, 1, 1,
          some ⟨.itemVersion, "#\\#CIF_1.1", 1⟩, []⟩,
         some .lexCif) := by
      have hx := lexVersionGo_run versionLetters ['#'] suf 0 1 1 none []
        (by decide)
      rw [List.singleton_append,
        show (['#'] : List Char).length = 1 from rfl,
        show (1 + versionLetters.length) = 10 from rfl,
        ite_self] at hx
      simp only [lexStep]
      rw [hx]
      simp only [Lexer.emit]
      rw [hcur]
    rw [show F + 3 = F + 2 + 1 from rfl]
    rw [nextItem]
    dsimp only
    rw [h1]
    dsimp only
    rw [show F + 2 = F + 1 + 1 from rfl]
    rw [nextItem]
    dsimp only
    rw [h2]
    dsimp only
    rw [show F + 1 = F + 0 + 1 from rfl]
    rw [nextItem]

/-- Whenever the input begins with the 10 characters of the version
prefix, the scanner's first token is the version token — regardless of
what the input continues with. -/
theorem tokens_version_prefix (rest : String) :
    tokens ("#\\#CIF_1.1" ++ rest) =
      ⟨.itemVersion, "#\\#CIF_1.1", 1⟩ ::
        lexAll (("#\\#CIF_1.1" ++ rest).length + 7)
          ⟨'#' :: versionLetters ++ rest.toList, 10, 10, 1, 1, none, []⟩
          (some .lexCif) := by
  have htl : ("#\\#CIF_1.1" ++ rest).toList =
      '#' :: versionLetters ++ rest.toList :=
    String.data_append "#\\#CIF_1.1" rest
  unfold tokens lexInit
  rw [htl]
  rw [show ("#\\#CIF_1.1" ++ rest).length + 8 =
    (("#\\#CIF_1.1" ++ rest).length + 7) + 1 from rfl]
  rw [lexAll]
  dsimp only
  rw [nextItem_version _ (by omega) rest.toList]
  dsimp only
  rw [if_neg (by decide), if_neg (by decide)]

/-- C9 amended.  The version construct is recognized only at the very
start of the input and only by matching the fixed 10-character prefix
`#\#CIF_1.1` — a prefix match, whatever follows.  First conjunct: for
*every* input beginning with those 10 characters, the scanner's first
token is a version token carrying exactly `#\#CIF_1.1`.  Second
conjunct: the parser stores a version token's suffix after the
3-character `#\#` prefix — here always `CIF_1.1` — verbatim as the
document's version.  The instances: the exact version line; the
extension `#\#CIF_1.1x`, whose version is still stored (`CIF_1.1`, not
`CIF_1.1x`) while the trailing `x` then silently ends the scan and the
rest of the document is dropped; the failed match `#\#CIF_1.2`, consumed
as an ordinary comment with the version left empty; and the exact
version line placed after the start, likewise a plain comment. -/
theorem c9_version_amended :
    (∀ rest : String, ∃ l, tokens ("#\\#CIF_1.1" ++ rest) =
      ⟨.itemVersion, "#\\#CIF_1.1", 1⟩ :: l) ∧
    (∀ (fuel : Nat) (cif : CIF) (t : item) (ts : List item) (line : Nat),
      t.typ = .itemVersion →
      parseTop (fuel + 1) cif t ts line =
        match nextTok ts line with
        | .error e => .error e
        | .ok (t2, ts2, line2) =>
            parseTop fuel { cif with Version := t.val.drop 3 } t2 ts2 line2) ∧
    Read "#\\#CIF_1.1\ndata_a\n" =
      .ok ⟨"CIF_1.1", [("a", ⟨⟨"a", [], []⟩, []⟩)]⟩ ∧
    Read "#\\#CIF_1.1x\ndata_a\n" = .ok ⟨"CIF_1.1", []⟩ ∧
    Read "#\\#CIF_1.2\ndata_a\n" = .ok ⟨"", [("a", ⟨⟨"a", [], []⟩, []⟩)]⟩ ∧
    Read "data_a\n#\\#CIF_1.1\n" = .ok ⟨"", [("a", ⟨⟨"a", [], []⟩, []⟩)]⟩ := by
  refine ⟨fun rest => ⟨_, tokens_version_prefix rest⟩, ?_, rfl, rfl, rfl, rfl⟩
  intro fuel cif t ts line ht
  simp only [parseTop]
  rw [ht]

/-- Witness for `c9_version_amended`: the prefix conjunct at the concrete
suffix `x\ndata_a\n`, and the version branch of `parseTop` at a concrete
token, fuel and document, its hypothesis discharged. -/
theorem c9_version_amended_witness :
    (∃ l, tokens ("#\\#CIF_1.1" ++ "x\ndata_a\n") =
      ⟨.itemVersion, "#\\#CIF_1.1", 1⟩ :: l) ∧
    (⟨.itemVersion, "#\\#CIF_1.1", 1⟩ : item).typ = .itemVersion ∧
    parseTop 2 ⟨"", []⟩ ⟨.itemVersion, "#\\#CIF_1.1", 1⟩ [] 0 =
      .ok ⟨"CIF_1.1", []⟩ := by
  refine ⟨c9_version_amended.1 "x\ndata_a\n", rfl, ?_⟩
  rw [c9_version_amended.2.1 1 ⟨"", []⟩ ⟨.itemVersion, "#\\#CIF_1.1", 1⟩
    [] 0 rfl]
  rfl

/-! ## Claims C6 and C10: table shape, sharing and `Loop.Get`

The development below establishes the structural invariant that a
successful `Read` guarantees for every loop reachable in the returned
document: at least one column, a common column length `L ≥ 1`, every
stored column index in range, and every tag of the loop bound — in the
owning block — to that same loop. -/

/-- The number of cells column `j` out of `n` columns holds after `count`
values have been dealt round-robin starting at column 0. -/
def numAt (count n j : Nat) : Nat :=
  count / n + (if j < count % n then 1 else 0)

/-- Before any value is dealt, every column is empty. -/
theorem numAt_zero (n j : Nat) : numAt 0 n j = 0 := by
  simp [numAt]

/-- Dealing one more value grows exactly the column `count % n` by one
cell. -/
theorem numAt_succ {n count j : Nat} (hj : j < n) :
    numAt (count + 1) n j =
      numAt count n j + (if j = count % n then 1 else 0) := by
  have hn : 0 < n := Nat.lt_of_le_of_lt (Nat.zero_le j) hj
  have hr : count % n < n := Nat.mod_lt _ hn
  have heq : n * (count / n) + count % n = count := Nat.div_add_mod count n
  by_cases hc : count % n + 1 < n
  · have h1 : count + 1 = (count % n + 1) + n * (count / n) := by omega
    have hdiv : (count + 1) / n = count / n := by
      rw [h1, Nat.add_mul_div_left _ _ hn, Nat.div_eq_of_lt hc, Nat.zero_add]
    have hmod : (count + 1) % n = count % n + 1 := by
      rw [h1, Nat.add_mul_mod_self_left, Nat.mod_eq_of_lt hc]
    simp only [numAt, hdiv, hmod]
    split_ifs <;> omega
  · have hmul : n * (count / n + 1) = n * (count / n) + n := by ring
    have h1 : count + 1 = 0 + n * (count / n + 1) := by rw [hmul]; omega
    have hdiv : (count + 1) / n = count / n + 1 := by
      rw [h1, Nat.add_mul_div_left _ _ hn, Nat.zero_div, Nat.zero_add]
    have hmod : (count + 1) % n = 0 := by
      rw [h1, Nat.add_mul_mod_self_left, Nat.zero_mod]
    simp only [numAt, hdiv, hmod]
    split_ifs <;> omega

/-- Indexing an `updAt` result: the updated slot is mapped, all others
are untouched. -/
theorem updAt_get {α : Type} (xs : List α) (k : Nat) (f : α → α) (j : Nat) :
    (updAt xs k f).get? j =
      if j = k then (xs.get? j).map f else xs.get? j := by
  induction xs generalizing k j with
  | nil => simp [updAt]
  | cons x xs ih =>
    cases k with
    | zero =>
      cases j with
      | zero => simp [updAt]
      | succ j => simp [updAt]
    | succ k =>
      cases j with
      | zero => simp [updAt]
      | succ j =>
        simp only [updAt, List.get?_cons_succ, Nat.add_right_cancel_iff]
        exact ih k j

/-- Looking a key up after an `ainsert`. -/
theorem alookup_ainsert {α : Type} (m : List (String × α)) (k : String)
    (v : α) (key : String) :
    alookup (ainsert m k v) key =
      if key = k then some v else alookup m key := by
  induction m with
  | nil =>
    by_cases h : key = k
    · simp [ainsert, alookup, h]
    · simp [ainsert, alookup, h, Ne.symm h]
  | cons p m ih =>
    obtain ⟨a, w⟩ := p
    by_cases h1 : a = k
    · subst h1
      by_cases h2 : key = a
      · subst h2
        simp [ainsert, alookup]
      · simp [ainsert, alookup, h2, Ne.symm h2]
    · by_cases h2 : a = key
      · subst h2
        simp [ainsert, alookup, h1, Ne.symm h1]
      · simp [ainsert, alookup, h1, h2, ih]

/-- A fold of `ainsert`s of one fixed loop leaves keys outside the folded
name list untouched. -/
theorem loops_fold_not_mem (vals : List loopValues)
    (m : List (String × Loop)) (lp : Loop) (key : String)
    (h : key ∉ vals.map loopValues.name) :
    alookup (vals.foldl (fun lm v => ainsert lm v.name lp) m) key =
      alookup m key := by
  induction vals generalizing m with
  | nil => rfl
  | cons v vs ih =>
    rw [List.map_cons, List.mem_cons] at h
    push_neg at h
    simp only [List.foldl_cons]
    rw [ih (ainsert m v.name lp) h.2, alookup_ainsert, if_neg h.1]

/-- A fold of `ainsert`s of one fixed loop binds every folded name to that
loop. -/
theorem loops_fold_mem (vals : List loopValues) (m : List (String × Loop))
    (lp : Loop) (key : String) (h : key ∈ vals.map loopValues.name) :
    alookup (vals.foldl (fun lm v => ainsert lm v.name lp) m) key =
      some lp := by
  induction vals generalizing m with
  | nil => simp at h
  | cons v vs ih =>
    simp only [List.foldl_cons]
    by_cases h2 : key ∈ vs.map loopValues.name
    · exact ih (ainsert m v.name lp) h2
    · rw [List.map_cons, List.mem_cons] at h
      rcases h with h1 | h1
      · rw [loops_fold_not_mem vs _ lp key h2, alookup_ainsert, if_pos h1]
      · exact absurd h1 h2

/-- Membership in `List.enumFrom` bounds the index and projects into the
underlying list. -/
theorem enumFrom_mem {α : Type} (l : List α) :
    ∀ (k : Nat) (p : Nat × α), p ∈ List.enumFrom k l →
      p.1 < k + l.length ∧ p.2 ∈ l := by
  induction l with
  | nil =>
    intro k p hp
    simp [List.enumFrom] at hp
  | cons x xs ih =>
    intro k p hp
    simp only [List.enumFrom] at hp
    rcases List.mem_cons.mp hp with h | h
    · subst h
      exact ⟨by simp only [List.length_cons]; omega, List.mem_cons_self _ _⟩
    · obtain ⟨h1, h2⟩ := ih (k + 1) p h
      exact ⟨by simp only [List.length_cons]; omega,
        List.mem_cons_of_mem _ h2⟩

/-- Every binding produced by the column-index fold comes from a folded
pair or from the seed map. -/
theorem colmap_spec (l : List (Nat × loopValues)) (m : List (String × Nat))
    (tag : String) (idx : Nat)
    (h : alookup (l.foldl (fun mm p => ainsert mm p.2.name p.1) m) tag =
      some idx) :
    (∃ p, p ∈ l ∧ p.2.name = tag ∧ p.1 = idx) ∨
      alookup m tag = some idx := by
  induction l generalizing m with
  | nil => exact Or.inr h
  | cons p ps ih =>
    simp only [List.foldl_cons] at h
    rcases ih _ h with h1 | h1
    · obtain ⟨q, hq, hq2, hq3⟩ := h1
      exact Or.inl ⟨q, List.mem_cons_of_mem _ hq, hq2, hq3⟩
    · rw [alookup_ainsert] at h1
      by_cases h2 : tag = p.2.name
      · rw [if_pos h2] at h1
        exact Or.inl ⟨p, List.mem_cons_self _ _, h2.symm, Option.some.inj h1⟩
      · rw [if_neg h2] at h1
        exact Or.inr h1

/-- A successful `assertUniqueTag` means the name is bound neither among
the items nor among the loops. -/
theorem assertUniqueTag_ok {b : Block} {name : String} {line : Nat}
    (h : assertUniqueTag b name line = .ok ()) :
    alookup b.Items name = none ∧ alookup b.Loops name = none := by
  unfold assertUniqueTag at h
  split at h
  · cases h
  · next hc =>
    push_neg at hc
    exact ⟨Option.not_isSome_iff_eq_none.mp (by simpa using hc.1),
      Option.not_isSome_iff_eq_none.mp (by simpa using hc.2)⟩

/-- The integer conversion keeps the number of cells. -/
theorem convIntCells_length {line : Nat} : ∀ {ss : List String}
    {ns : List Int}, convIntCells line ss = .ok ns →
    ns.length = ss.length := by
  intro ss
  induction ss with
  | nil =>
    intro ns h
    rw [convIntCells] at h
    cases h
    rfl
  | cons s rest ih =>
    intro ns h
    rw [convIntCells] at h
    split at h
    · split at h
      · cases h
      · next ns2 heq =>
        cases h
        simp [ih heq]
    · split at h
      · cases h
      · split at h
        · cases h
        · next ns2 heq =>
          cases h
          simp [ih heq]

/-- The float conversion keeps the number of cells. -/
theorem convFloatCells_length {line : Nat} : ∀ {ss : List String}
    {fs : List String}, convFloatCells line ss = .ok fs →
    fs.length = ss.length := by
  intro ss
  induction ss with
  | nil =>
    intro fs h
    rw [convFloatCells] at h
    cases h
    rfl
  | cons s rest ih =>
    intro fs h
    rw [convFloatCells] at h
    split at h
    · split at h
      · cases h
      · next fs2 heq =>
        cases h
        simp [ih heq]
    · split at h
      · cases h
      · split at h
        · cases h
        · next fs2 heq =>
          cases h
          simp [ih heq]

/-- Converting one column keeps its cell count. -/
theorem convertColumn_length {bname : String} {line : Nat} {v : loopValues}
    {c : ValueLoop} (h : convertColumn bname line v = .ok c) :
    colLen c = v.strs.length := by
  unfold convertColumn at h
  split at h
  · cases h; rfl
  · cases h; rfl
  · cases h; rfl
  · cases hc : convIntCells line v.strs with
    | error e => rw [hc] at h; simp [Except.map] at h
    | ok ns =>
      rw [hc] at h
      simp only [Except.map] at h
      cases h
      exact convIntCells_length hc
  · cases hc : convFloatCells line v.strs with
    | error e => rw [hc] at h; simp [Except.map] at h
    | ok fs =>
      rw [hc] at h
      simp only [Except.map] at h
      cases h
      exact convFloatCells_length hc
  · cases h

/-- Converting all columns keeps the column count and each column's cell
count. -/
theorem convertColumns_spec {bname : String} {line : Nat} :
    ∀ {vals : List loopValues} {cols : List ValueLoop},
    convertColumns bname line vals = .ok cols →
    cols.length = vals.length ∧
    ∀ j c, cols.get? j = some c →
      ∃ v, vals.get? j = some v ∧ colLen c = v.strs.length := by
  intro vals
  induction vals with
  | nil =>
    intro cols h
    rw [convertColumns] at h
    cases h
    refine ⟨rfl, ?_⟩
    intro j c hc
    simp at hc
  | cons v vs ih =>
    intro cols h
    rw [convertColumns] at h
    split at h
    · cases h
    · next col heq =>
      split at h
      · cases h
      · next cols2 heq2 =>
        cases h
        obtain ⟨hl, hspec⟩ := ih heq2
        refine ⟨by simp [hl], ?_⟩
        intro j c hc
        cases j with
        | zero =>
          simp only [List.get?_cons_zero, Option.some.injEq] at hc
          refine ⟨v, rfl, ?_⟩
          rw [← hc]
          exact convertColumn_length heq
        | succ j =>
          simp only [List.get?_cons_succ] at hc
          obtain ⟨w, hw1, hw2⟩ := hspec j c hc
          exact ⟨w, by simpa using hw1, hw2⟩

/-- What a successful tag-collection pass guarantees: the collected
columns extend the accumulator by fresh, empty, untyped columns — one per
consumed tag, at least one if the lookahead was a tag. -/
theorem slurpTags_out : ∀ (fuel : Nat) (b : Block) (vals0 : List loopValues)
    (t : item) (ts : List item) (line : Nat) (vals2 : List loopValues)
    (t2 : item) (ts2 : List item) (line2 : Nat),
    slurpTags fuel b vals0 t ts line = .ok (vals2, t2, ts2, line2) →
    ∃ new, vals2 = vals0 ++ new ∧
      (∀ v ∈ new, v.strs = [] ∧ v.typ = .itemDataNone ∧
        alookup b.Items v.name = none ∧ alookup b.Loops v.name = none) ∧
      (t.typ = .itemDataTag → new ≠ []) := by
  intro fuel
  induction fuel with
  | zero =>
    intro b vals0 t ts line vals2 t2 ts2 line2 h
    rw [slurpTags] at h
    cases h
  | succ fuel ih =>
    intro b vals0 t ts line vals2 t2 ts2 line2 h
    simp only [slurpTags] at h
    split at h
    · next htag =>
      split at h
      · cases h
      · next u hau =>
        split at h
        · cases h
        · next t3 ts3 l3 heq3 =>
          obtain ⟨new2, hnew1, hnew2, _⟩ :=
            ih b _ t3 ts3 l3 vals2 t2 ts2 line2 h
          refine ⟨⟨strToLower t.val, [], .itemDataNone⟩ :: new2,
            by simp [hnew1], ?_, by simp⟩
          intro v hv
          rcases List.mem_cons.mp hv with h1 | h1
          · subst h1
            obtain ⟨hi, hl⟩ := assertUniqueTag_ok hau
            exact ⟨rfl, rfl, hi, hl⟩
          · exact hnew2 v h1
    · next htag =>
      cases h
      exact ⟨[], by simp, by simp, fun hx => absurd hx htag⟩

/-- What a successful value-distribution pass guarantees, starting from
the lockstep state the parser uses (`idx = count`): the column count is
fixed, the count never shrinks and strictly grows when the lookahead is a
value, and every resulting column keeps its tag and holds exactly its
round-robin share `numAt` of the consumed values. -/
theorem slurpValues_out : ∀ (fuel : Nat) (vals : List loopValues)
    (count : Nat) (t : item) (ts : List item) (line : Nat)
    (vals2 : List loopValues) (t2 : item) (ts2 : List item)
    (line2 count2 : Nat),
    slurpValues fuel vals count count t ts line =
      .ok (vals2, t2, ts2, line2, count2) →
    (∀ j v, vals.get? j = some v →
      v.strs.length = numAt count vals.length j) →
    vals2.length = vals.length ∧ count ≤ count2 ∧
    (isValueType t.typ = true → count < count2) ∧
    (∀ j v2, vals2.get? j = some v2 →
      ∃ v, vals.get? j = some v ∧ v2.name = v.name ∧
        v2.strs.length = numAt count2 vals.length j) := by
  intro fuel
  induction fuel with
  | zero =>
    intro vals count t ts line vals2 t2 ts2 line2 count2 h hH
    rw [slurpValues] at h
    cases h
  | succ fuel ih =>
    intro vals count t ts line vals2 t2 ts2 line2 count2 h hH
    simp only [slurpValues] at h
    split at h
    · next hval =>
      split at h
      · cases h
      · next t3 ts3 l3 heq3 =>
        have hup : (updAt vals (count % vals.length)
            (fun v => ⟨v.name, v.strs ++ [t.val],
              loopTypStep v.typ t.typ⟩)).length = vals.length :=
          updAt_length _ _ _
        have hH2 : ∀ j v, (updAt vals (count % vals.length)
            (fun v => ⟨v.name, v.strs ++ [t.val],
              loopTypStep v.typ t.typ⟩)).get? j = some v →
            v.strs.length = numAt (count + 1) (updAt vals
              (count % vals.length)
              (fun v => ⟨v.name, v.strs ++ [t.val],
                loopTypStep v.typ t.typ⟩)).length j := by
          intro j v hv
          rw [hup]
          rw [updAt_get] at hv
          by_cases hj : j = count % vals.length
          · rw [if_pos hj] at hv
            cases hg : vals.get? j with
            | none => rw [hg] at hv; cases hv
            | some w =>
              rw [hg] at hv
              simp only [Option.map_some'] at hv
              have hv2 := Option.some.inj hv
              have hjlt : j < vals.length := (List.get?_eq_some.mp hg).1
              rw [← hv2, numAt_succ hjlt, if_pos hj]
              simp [hH j w hg]
          · rw [if_neg hj] at hv
            have hjlt : j < vals.length := (List.get?_eq_some.mp hv).1
            rw [numAt_succ hjlt, if_neg hj, Nat.add_zero]
            exact hH j v hv
        obtain ⟨h1, h2, _, h4⟩ :=
          ih _ (count + 1) t3 ts3 l3 vals2 t2 ts2 line2 count2 h hH2
        refine ⟨by rw [h1, hup], by omega, fun _ => by omega, ?_⟩
        intro j v2 hv2
        obtain ⟨w, hw1, hw2, hw3⟩ := h4 j v2 hv2
        rw [updAt_get] at hw1
        rw [hup] at hw3
        by_cases hj : j = count % vals.length
        · rw [if_pos hj] at hw1
          cases hg : vals.get? j with
          | none => rw [hg] at hw1; cases hw1
          | some u =>
            rw [hg] at hw1
            simp only [Option.map_some'] at hw1
            have hw1b := Option.some.inj hw1
            refine ⟨u, rfl, ?_, hw3⟩
            rw [hw2, ← hw1b]
        · rw [if_neg hj] at hw1
          exact ⟨w, hw1, hw2, hw3⟩
    · next hval =>
      cases h
      refine ⟨rfl, Nat.le_refl _, fun hc => absurd hc hval, ?_⟩
      intro j v2 hv2
      exact ⟨v2, hv2, rfl, hH j v2 hv2⟩

/-- The shape a parsed table always has: at least one column, one common
column length `L ≥ 1`, and every stored column index in range. -/
def LoopInv (lp : Loop) : Prop :=
  lp.Values ≠ [] ∧
  (∃ L, 1 ≤ L ∧ ∀ c ∈ lp.Values, colLen c = L) ∧
  (∀ tag idx, alookup lp.Columns tag = some idx → idx < lp.Values.length)

/-- The per-block invariant: every loop bound in the block's loop map is
well shaped, and every tag of that loop is bound — in this same map — to
that same loop. -/
def BlockLoopsInv (b : Block) : Prop :=
  ∀ name lp, alookup b.Loops name = some lp →
    LoopInv lp ∧
    ∀ tag idx, alookup lp.Columns tag = some idx →
      alookup b.Loops tag = some lp

/-- The invariant for a whole data block: its own loops and those of each
of its save frames. -/
def DataBlockInv (db : DataBlock) : Prop :=
  BlockLoopsInv db.Block ∧
  ∀ fname sf, alookup db.Frames fname = some sf → BlockLoopsInv sf.Block

/-- The invariant for a whole document. -/
def CIFInv (doc : CIF) : Prop :=
  ∀ bname db, alookup doc.Blocks bname = some db → DataBlockInv db

/-- A block with no loops satisfies the invariant. -/
theorem emptyBlockInv (nm : String) : BlockLoopsInv ⟨nm, [], []⟩ := by
  intro name lp hl
  simp [alookup] at hl

/-- Two blocks with the same loop map satisfy the invariant together. -/
theorem blockLoopsInv_of_eq {b b2 : Block} (h : b2.Loops = b.Loops)
    (hi : BlockLoopsInv b) : BlockLoopsInv b2 := by
  intro name lp hl
  rw [h] at hl
  obtain ⟨h1, h2⟩ := hi name lp hl
  refine ⟨h1, ?_⟩
  intro tag idx hx
  rw [h]
  exact h2 tag idx hx

/-- The loop parser preserves the per-block loop invariant. -/
theorem parseLoop_inv {b : Block} {ts : List item} {line : Nat}
    {b2 : Block} {t2 : item} {ts2 : List item} {line2 : Nat}
    (hinv : BlockLoopsInv b)
    (h : parseLoop b ts line = .ok (b2, t2, ts2, line2)) :
    BlockLoopsInv b2 := by
  simp only [parseLoop] at h
  split at h
  · cases h
  · next t1 ts1 line1 heq1 =>
    split at h
    · cases h
    · next hc =>
      have htag : t1.typ = .itemDataTag := not_not.mp hc
      split at h
      · cases h
      · next vals t3 ts3 line3 heq2 =>
        split at h
        · cases h
        · next hvc =>
          have hval : isValueType t3.typ = true := of_not_not hvc
          split at h
          · cases h
          · next vals2 t4 ts4 line4 count heq3 =>
            split at h
            · cases h
            · next hcc =>
              have hcnt : count % vals2.length = 0 := not_not.mp hcc
              split at h
              · cases h
              · next b3 lp heq4 =>
                cases h
                obtain ⟨new, hveq, hfresh, hne⟩ :=
                  slurpTags_out _ b [] t1 ts1 line1 vals t3 ts3 line3 heq2
                rw [List.nil_append] at hveq
                subst vals
                have hnnil : new ≠ [] := hne htag
                have hH0 : ∀ j v, new.get? j = some v →
                    v.strs.length = numAt 0 new.length j := by
                  intro j v hv
                  rw [(hfresh v (List.get?_mem hv)).1, numAt_zero]
                  rfl
                obtain ⟨hlen2, _, hgt, h4⟩ :=
                  slurpValues_out _ new 0 t3 ts3 line3 vals2 _ _ _
                    count heq3 hH0
                have hpos : 0 < count := hgt hval
                have hn : 0 < new.length := List.length_pos.mpr hnnil
                rw [hlen2] at hcnt
                have hcells : ∀ j v2, vals2.get? j = some v2 →
                    v2.strs.length = count / new.length ∧
                    ∃ v, new.get? j = some v ∧ v2.name = v.name := by
                  intro j v2 hv2
                  obtain ⟨v, hv, hnm, hlen⟩ := h4 j v2 hv2
                  refine ⟨?_, v, hv, hnm⟩
                  rw [hlen, numAt, hcnt, if_neg (by omega), Nat.add_zero]
                have hL : 1 ≤ count / new.length := by
                  have hd := Nat.div_add_mod count new.length
                  rw [hcnt, Nat.add_zero] at hd
                  by_contra hx
                  push_neg at hx
                  have hz : count / new.length = 0 := Nat.lt_one_iff.mp hx
                  rw [hz, Nat.mul_zero] at hd
                  omega
                have hfresh2 : ∀ key, key ∈ vals2.map loopValues.name →
                    alookup b.Loops key = none := by
                  intro key hkey
                  rw [List.mem_map] at hkey
                  obtain ⟨v2, hv2, hkeq⟩ := hkey
                  obtain ⟨j, hj⟩ := List.mem_iff_get?.mp hv2
                  obtain ⟨_, v, hv, hnm⟩ := hcells j v2 hj
                  rw [← hkeq, hnm]
                  exact (hfresh v (List.get?_mem hv)).2.2.2
                simp only [convertLoopValues] at heq4
                split at heq4
                · cases heq4
                · next cols heqc =>
                  cases heq4
                  obtain ⟨hclen, hcspec⟩ := convertColumns_spec heqc
                  have hc2 : cols.length = new.length := by
                    rw [hclen, hlen2]
                  have hlpinv : LoopInv ⟨vals2.enum.foldl
                      (fun m p => ainsert m p.2.name p.1) [], cols⟩ := by
                    refine ⟨List.length_pos.mp (by rw [hc2]; exact hn),
                      ⟨count / new.length, hL, ?_⟩, ?_⟩
                    · intro c hcmem
                      obtain ⟨j, hj⟩ := List.mem_iff_get?.mp hcmem
                      obtain ⟨v2, hv2, hcl⟩ := hcspec j c hj
                      rw [hcl, (hcells j v2 hv2).1]
                    · intro tag idx hidx
                      rcases colmap_spec _ _ _ _ hidx with hp | hp
                      · obtain ⟨p, hpmem, _, hpidx⟩ := hp
                        have henum : vals2.enum = List.enumFrom 0 vals2 :=
                          rfl
                        rw [henum] at hpmem
                        have hb := enumFrom_mem vals2 0 p hpmem
                        have hcv : cols.length = vals2.length := hclen
                        show idx < cols.length
                        omega
                      · simp [alookup] at hp
                  intro name lpX hname
                  have hname2 : alookup (vals2.foldl
                      (fun lm v => ainsert lm v.name
                        ⟨vals2.enum.foldl
                          (fun m p => ainsert m p.2.name p.1) [], cols⟩)
                      b.Loops) name = some lpX := hname
                  by_cases hmem : name ∈ vals2.map loopValues.name
                  · rw [loops_fold_mem vals2 b.Loops _ name hmem] at hname2
                    cases hname2
                    refine ⟨hlpinv, ?_⟩
                    intro tag idx hidx
                    rcases colmap_spec _ _ _ _ hidx with hp | hp
                    · obtain ⟨p, hpmem, hptag, _⟩ := hp
                      have henum : vals2.enum = List.enumFrom 0 vals2 := rfl
                      rw [henum] at hpmem
                      have hb := enumFrom_mem vals2 0 p hpmem
                      have htagmem : tag ∈ vals2.map loopValues.name :=
                        List.mem_map.mpr ⟨p.2, hb.2, hptag⟩
                      exact loops_fold_mem vals2 b.Loops _ tag htagmem
                    · simp [alookup] at hp
                  · rw [loops_fold_not_mem vals2 b.Loops _ name hmem] at hname2
                    obtain ⟨hli, hsh⟩ := hinv name lpX hname2
                    refine ⟨hli, ?_⟩
                    intro tag idx hidx
                    have hold := hsh tag idx hidx
                    have htagns : tag ∉ vals2.map loopValues.name := by
                      intro hmm
                      rw [hfresh2 tag hmm] at hold
                      cases hold
                    exact (loops_fold_not_mem vals2 b.Loops _ tag
                      htagns).trans hold

/-- Parsing a plain item never touches the block's loop map. -/
theorem parseItemValue_loops {b : Block} {name : String} {ts : List item}
    {line : Nat} {b2 : Block} {ts2 : List item} {line2 : Nat}
    (h : parseItemValue b name ts line = .ok (b2, ts2, line2)) :
    b2.Loops = b.Loops := by
  unfold parseItemValue at h
  split at h
  · cases h
  · split at h
    · cases h
    · next t1 ts1 line1 heq1 =>
      split at h
      · cases h
      · next v heq2 =>
        cases h
        rfl

/-- The save-frame body loop preserves the loop invariant of the frame
block it grows. -/
theorem parseSaveFrameBody_inv : ∀ (fuel : Nat) (frame : Block) (t : item)
    (ts : List item) (line : Nat) (frame2 : Block) (ts2 : List item)
    (line2 : Nat), BlockLoopsInv frame →
    parseSaveFrameBody fuel frame t ts line = .ok (frame2, ts2, line2) →
    BlockLoopsInv frame2 := by
  intro fuel
  induction fuel with
  | zero =>
    intro frame t ts line frame2 ts2 line2 _ h
    rw [parseSaveFrameBody] at h
    cases h
  | succ fuel ih =>
    intro frame t ts line frame2 ts2 line2 hinv h
    rw [parseSaveFrameBody] at h
    split at h
    · cases h
      exact hinv
    · split at h
      · cases h
      · next frame3 t3 ts3 line3 heq =>
        exact ih _ _ _ _ _ _ _ (parseLoop_inv hinv heq) h
    · split at h
      · cases h
      · next frame3 ts3 line3 heq =>
        split at h
        · cases h
        · next t4 ts4 line4 heq2 =>
          exact ih _ _ _ _ _ _ _
            (blockLoopsInv_of_eq (parseItemValue_loops heq) hinv) h
    · cases h

/-- Parsing a save frame preserves the whole data-block invariant. -/
theorem parseSaveFrame_inv {dblock : DataBlock} {name : String}
    {ts : List item} {line : Nat} {dblock2 : DataBlock} {ts2 : List item}
    {line2 : Nat} (hinv : DataBlockInv dblock)
    (h : parseSaveFrame dblock name ts line = .ok (dblock2, ts2, line2)) :
    DataBlockInv dblock2 := by
  unfold parseSaveFrame at h
  split at h
  · cases h
  · split at h
    · cases h
    · next t1 ts1 line1 heq1 =>
      split at h
      · cases h
      · next frameB ts3 line3 heq2 =>
        cases h
        have hfb : BlockLoopsInv frameB :=
          parseSaveFrameBody_inv _ _ _ _ _ _ _ _ (emptyBlockInv name) heq2
        refine ⟨hinv.1, ?_⟩
        intro fname sf hsf
        have hsf2 : alookup (ainsert dblock.Frames name ⟨frameB⟩) fname =
            some sf := hsf
        rw [alookup_ainsert] at hsf2
        by_cases hf : fname = name
        · rw [if_pos hf] at hsf2
          cases hsf2
          exact hfb
        · rw [if_neg hf] at hsf2
          exact hinv.2 fname sf hsf2

/-- The data-block body loop preserves the data-block invariant. -/
theorem parseDataBlockBody_inv : ∀ (fuel : Nat) (dblock : DataBlock)
    (t : item) (ts : List item) (line : Nat) (dblock2 : DataBlock)
    (t2 : item) (ts2 : List item) (line2 : Nat), DataBlockInv dblock →
    parseDataBlockBody fuel dblock t ts line = .ok (dblock2, t2, ts2, line2) →
    DataBlockInv dblock2 := by
  intro fuel
  induction fuel with
  | zero =>
    intro dblock t ts line dblock2 t2 ts2 line2 _ h
    rw [parseDataBlockBody] at h
    cases h
  | succ fuel ih =>
    intro dblock t ts line dblock2 t2 ts2 line2 hinv h
    rw [parseDataBlockBody] at h
    split at h
    · cases h
      exact hinv
    · cases h
      exact hinv
    · split at h
      · cases h
      · next dblock3 ts3 line3 heq =>
        split at h
        · cases h
        · next t4 ts4 line4 heq2 =>
          exact ih _ _ _ _ _ _ _ _ (parseSaveFrame_inv hinv heq) h
    · split at h
      · cases h
      · next b3 t3 ts3 line3 heq =>
        refine ih _ _ _ _ _ _ _ _ ?_ h
        exact ⟨parseLoop_inv hinv.1 heq, hinv.2⟩
    · split at h
      · cases h
      · next b3 ts3 line3 heq =>
        split at h
        · cases h
        · next t4 ts4 line4 heq2 =>
          refine ih _ _ _ _ _ _ _ _ ?_ h
          exact ⟨blockLoopsInv_of_eq (parseItemValue_loops heq) hinv.1,
            hinv.2⟩
    · cases h

/-- Parsing a whole data block yields only invariant-satisfying blocks in
the updated block map. -/
theorem parseDataBlock_inv {blocks : List (String × DataBlock)}
    {name : String} {ts : List item} {line : Nat}
    {blocks2 : List (String × DataBlock)} {t2 : item} {ts2 : List item}
    {line2 : Nat}
    (hinv : ∀ bn db, alookup blocks bn = some db → DataBlockInv db)
    (h : parseDataBlock blocks name ts line = .ok (blocks2, t2, ts2, line2)) :
    ∀ bn db, alookup blocks2 bn = some db → DataBlockInv db := by
  unfold parseDataBlock at h
  split at h
  · cases h
  · split at h
    · cases h
    · next t1 ts1 line1 heq1 =>
      split at h
      · cases h
      · next dblock t3 ts3 line3 heq2 =>
        cases h
        have hdb : DataBlockInv dblock :=
          parseDataBlockBody_inv _ _ _ _ _ _ _ _ _
            ⟨emptyBlockInv name, by
              intro f sf hsf
              simp [alookup] at hsf⟩ heq2
        intro bn db hdb2
        have hdb3 : alookup (ainsert blocks name dblock) bn = some db := hdb2
        rw [alookup_ainsert] at hdb3
        by_cases hb : bn = name
        · rw [if_pos hb] at hdb3
          cases hdb3
          exact hdb
        · rw [if_neg hb] at hdb3
          exact hinv bn db hdb3

/-- The top-level parse loop preserves the document invariant. -/
theorem parseTop_inv : ∀ (fuel : Nat) (cif : CIF) (t : item)
    (ts : List item) (line : Nat) (doc : CIF),
    (∀ bn db, alookup cif.Blocks bn = some db → DataBlockInv db) →
    parseTop fuel cif t ts line = .ok doc → CIFInv doc := by
  intro fuel
  induction fuel with
  | zero =>
    intro cif t ts line doc _ h
    rw [parseTop] at h
    cases h
  | succ fuel ih =>
    intro cif t ts line doc hinv h
    simp only [parseTop] at h
    split at h
    · cases h
      exact hinv
    · split at h
      · cases h
      · next blocks3 t3 ts3 line3 heq =>
        exact ih _ _ _ _ _ (parseDataBlock_inv hinv heq) h
    · split at h
      · cases h
      · next t3 ts3 line3 heq =>
        refine ih _ _ _ _ _ ?_ h
        exact hinv
    · cases h

/-- Any document a successful parse returns satisfies the structural
invariant. -/
theorem parse_inv {ts : List item} {doc : CIF} (h : parse ts = .ok doc) :
    CIFInv doc := by
  unfold parse at h
  split at h
  · cases h
  · next t1 ts1 line1 heq =>
    exact parseTop_inv _ _ _ _ _ _ (by
      intro bn db hdb
      simp [alookup] at hdb) h

/-- Any document a successful `Read` returns satisfies the structural
invariant. -/
theorem Read_inv {input : String} {doc : CIF} (h : Read input = .ok doc) :
    CIFInv doc := by
  unfold Read at h
  exact parse_inv h

/-- A two-column two-row table, for exercising the invariant. -/
def c6Input : String := "data_a\nloop_\n_x\n_y\n1 2 3 4\n"

/-- The loop `Read` builds for `c6Input`. -/
def c6Loop : Loop :=
  ⟨[("x", 0), ("y", 1)], [.cifInts [1, 3], .cifInts [2, 4]]⟩

/-- The document `Read` builds for `c6Input`: both tags bound to the one
loop. -/
def c6Doc : CIF :=
  ⟨"", [("a", ⟨⟨"a", [], [("x", c6Loop), ("y", c6Loop)]⟩, []⟩)]⟩

/-- C6.  Every document a successful `Read` returns satisfies the
structural table invariant `CIFInv`: in every data block and in every
save frame, every loop reachable in the loop map has at least one
column, all its columns share one length `L ≥ 1` (with every stored
column index in range), and every tag of the loop is bound in the owning
block's loop map to that very loop, so the table is reached through any
one of its tags with identical results.  The second conjunct accounts
for the raw value count: a value-distribution pass that starts from
empty columns (as `parseLoop` starts it) and passes the arity check ends
with every one of the `n` columns holding `L = count / n` cells and
`count = L * n` raw values consumed. -/
theorem c6_table_shape_and_sharing :
    (∀ input doc, Read input = .ok doc → CIFInv doc) ∧
    (∀ fuel vals t ts line vals2 t2 ts2 line2 count,
      (∀ v ∈ vals, v.strs = []) →
      slurpValues fuel vals 0 0 t ts line =
        .ok (vals2, t2, ts2, line2, count) →
      count % vals.length = 0 →
      vals2.length = vals.length ∧
      count = (count / vals.length) * vals.length ∧
      ∀ v ∈ vals2, v.strs.length = count / vals.length) := by
  constructor
  · intro input doc h
    exact Read_inv h
  · intro fuel vals t ts line vals2 t2 ts2 line2 count hempty hrun hmod
    have hH0 : ∀ j v, vals.get? j = some v →
        v.strs.length = numAt 0 vals.length j := by
      intro j v hv
      rw [hempty v (List.get?_mem hv), numAt_zero]
      rfl
    obtain ⟨hlen, -, -, h4⟩ :=
      slurpValues_out fuel vals 0 t ts line vals2 t2 ts2 line2 count hrun hH0
    refine ⟨hlen,
      (Nat.div_mul_cancel (Nat.dvd_of_mod_eq_zero hmod)).symm, ?_⟩
    intro v2 hv2
    obtain ⟨j, hj⟩ := List.mem_iff_get?.mp hv2
    obtain ⟨v, hv, -, hl⟩ := h4 j v2 hj
    rw [hl, numAt, hmod, if_neg (by omega), Nat.add_zero]

/-- Witness for `c6_table_shape_and_sharing`: the parsed two-column
document satisfies the invariant, and the concrete value pass that built
it dealt two cells into each column. -/
theorem c6_table_shape_and_sharing_witness :
    CIFInv c6Doc ∧
    ∀ v ∈ ([⟨"x", ["1", "3"], .itemDataInteger⟩,
            ⟨"y", ["2", "4"], .itemDataInteger⟩] : List loopValues),
      v.strs.length = 2 := by
  constructor
  · exact c6_table_shape_and_sharing.1 c6Input c6Doc rfl
  · have h := c6_table_shape_and_sharing.2 10
      [⟨"x", [], .itemDataNone⟩, ⟨"y", [], .itemDataNone⟩]
      ⟨.itemDataInteger, "1", 1⟩
      [⟨.itemDataInteger, "2", 1⟩, ⟨.itemDataInteger, "3", 1⟩,
       ⟨.itemDataInteger, "4", 1⟩, eofItem] 1
      [⟨"x", ["1", "3"], .itemDataInteger⟩,
       ⟨"y", ["2", "4"], .itemDataInteger⟩]
      eofItem [] 0 4 (by decide) rfl (by decide)
    simpa using h.2.2

/-- A two-column one-row table, for exercising `Loop.Get`. -/
def c10Input : String := "data_a\nloop_\n_p\n_q\n5 6\n"

/-- The loop `Read` builds for `c10Input`. -/
def c10Loop : Loop := ⟨[("p", 0), ("q", 1)], [.cifInts [5], .cifInts [6]]⟩

/-- The document `Read` builds for `c10Input`. -/
def c10Doc : CIF :=
  ⟨"", [("a", ⟨⟨"a", [], [("p", c10Loop), ("q", c10Loop)]⟩, []⟩)]⟩

/-- C10.  At the public interface `Loop.Get` is total: for every loop of
a document returned by a successful `Read` — in a data block or in one
of its save frames — calling `Get` with a tag that is not one of the
loop's column names neither panics (models as `none` here) nor returns a
distinguished error value: the Go map lookup yields the zero value `0`
for the index, every parsed loop has at least one column, and `Get`
returns the column at index 0. -/
theorem c10_get_total (input : String) (doc : CIF)
    (h : Read input = .ok doc) (bname : String) (db : DataBlock)
    (hb : alookup doc.Blocks bname = some db) (lname : String) (lp : Loop)
    (hlp : alookup db.Block.Loops lname = some lp ∨
      ∃ fname sf, alookup db.Frames fname = some sf ∧
        alookup sf.Block.Loops lname = some lp)
    (name : String) (hmiss : alookup lp.Columns name = none) :
    ∃ c0, lp.Values.get? 0 = some c0 ∧ lp.Get name = some c0 := by
  have hdb := Read_inv h bname db hb
  have hloop : LoopInv lp := by
    rcases hlp with h1 | ⟨fname, sf, h1, h2⟩
    · exact (hdb.1 lname lp h1).1
    · exact (hdb.2 fname sf h1 lname lp h2).1
  obtain ⟨hne, -, -⟩ := hloop
  cases hcv : lp.Values with
  | nil => exact absurd hcv hne
  | cons c0 cs =>
    refine ⟨c0, rfl, ?_⟩
    unfold Loop.Get
    rw [hmiss, hcv]
    rfl

/-- Witness for `c10_get_total`: in the parsed two-column document the
tag `zz` is not a column name, and `Get` hands back the first column. -/
theorem c10_get_total_witness :
    ∃ c0, c10Loop.Values.get? 0 = some c0 ∧ c10Loop.Get "zz" = some c0 :=
  c10_get_total c10Input c10Doc rfl "a"
    ⟨⟨"a", [], [("p", c10Loop), ("q", c10Loop)]⟩, []⟩ rfl "p" c10Loop
    (Or.inl rfl) "zz" rfl

end Cif
